import Mathlib

/-!
# TimeLapseFusion.c

A shallow embedding of the driver `TimeLapseFusion.c` (functions `ExposureFuse`,
`TimeLapseFuse` and `main`) together with the properties stated about it.

Modelling conventions
* A `double` is an exact rational number (`ℚ`); rounding error is not modelled.
* A C `int` is an `Int`; the product `i*i` and the negation in the weight loop
  are reduced to 32 bits by `wrap32`.
* A C string is a `List Char` without its terminating NUL. The input list is
  the list of lines `fgets` returns, each with its newline.
* An array reached through a pointer is a `List`; the NULL pointer is the list
  with no slot, and every access outside the list stops the run with
  `Stop.segfault`.
* The heap never runs out: `calloc`, `newImage` and `copyImage` succeed, so the
  out-of-memory exits of the three functions are not part of the model.
  `deletePyramid`, `deleteImage` and `free` have no effect on values.
* The functions of `imageProc.h` are not in this file. Those whose result the
  driver inspects are fields of `ImageProc`; the pointwise operations are
  modelled from the specification.
-/

namespace TimeLapseFusion

/-! ## Strings -/

/-- The scan `for (i=strlen(s)-1;i>0;i--) if (s[i]=='m'){s[i+1]='\0';break;}`
started at index `i`: index `0` is never inspected. -/
def trimScan (s : List Char) : Nat → List Char
  | 0 => s
  | i + 1 => if s[i + 1]? = some 'm' then s.take (i + 2) else trimScan s i

/-- The end-of-line removal applied to every line returned by `fgets`. -/
def trimEOL (s : List Char) : List Char := trimScan s (s.length - 1)

/-- The decimal digits of a natural number printed by `%d`. -/
def decimal (n : Nat) : List Char := (Nat.repr n).toList

/-- The conversion `%09d` of a non-negative number: zero-padded to width 9. -/
def pad9 (n : Nat) : List Char :=
  List.replicate (9 - (decimal n).length) '0' ++ decimal n

/-- The name built by `sprintf(oname,"%sTLF_%09d.ppm",dstPath,frameNo)`. -/
def tlfName (dstPath : List Char) (frameNo : Nat) : List Char :=
  dstPath ++ "TLF_".toList ++ pad9 frameNo ++ ".ppm".toList

/-- The name built by `sprintf(oname,"%sExpFusionOutput.ppm",dstPath)`. -/
def expFusionName (dstPath : List Char) : List Char :=
  dstPath ++ "ExpFusionOutput.ppm".toList

/-- The number a string of decimal digits denotes. -/
def digitsValue (s : List Char) : Nat := s.foldl (fun a c => 10 * a + (c.toNat - 48)) 0

/-! ## Machine arithmetic -/

def INT_MIN : Int := -2147483648

def INT_MAX : Int := 2147483647

/-- Reduction of an integer to a 32-bit two's complement `int`. -/
def wrap32 (z : Int) : Int := (z + 2147483648) % 4294967296 - 2147483648

/-- The C library `round`: to the nearest integer, halves away from zero. -/
def roundHalfAway (x : ℚ) : Int :=
  if 0 ≤ x then ⌊x + 1 / 2⌋ else -⌊-x + 1 / 2⌋

/-- The cast `(int)` of an integral `double`. Outside the range of `int` the
conversion is undefined in C; the model returns `INT_MIN`, the value the
x86-64 conversion instruction produces. -/
def toInt (z : Int) : Int := if INT_MIN ≤ z ∧ z ≤ INT_MAX then z else INT_MIN

/-- The argument `-(i*i)/(2*sigma*sigma)` handed to `exp` in `TimeLapseFuse`:
`i*i` and its negation are `int` operations, the quotient is a `double`. -/
def weightArg (sigma : ℚ) (i : Int) : ℚ :=
  (wrap32 (-(wrap32 (i * i))) : ℚ) / (2 * sigma * sigma)

/-! ## Images and pyramids -/

/-- The record `struct image`: width, height, number of layers and the samples
of every layer, `layers c p` being sample `p` of layer `c`. -/
structure image where
  sx : Nat
  sy : Nat
  nlayers : Nat
  layers : Nat → Nat → ℚ

/-- The record `struct pyramid`: its array of levels; `levels` is the length. -/
structure pyramid where
  images : List image

/-- The field `levels` of a pyramid. -/
def pyramid.levels (p : pyramid) : Nat := p.images.length

/-- Two images have the same width, height and number of layers. -/
def sameGeometry (a b : image) : Prop :=
  a.sx = b.sx ∧ a.sy = b.sy ∧ a.nlayers = b.nlayers

instance (a b : image) : Decidable (sameGeometry a b) :=
  inferInstanceAs (Decidable (a.sx = b.sx ∧ a.sy = b.sy ∧ a.nlayers = b.nlayers))

/-- Modelled from the spec: `newImage` of imageProc, which is not in this file;
the accumulators it creates are fresh, every sample zero. -/
def newImage (sx sy n : Nat) : image := ⟨sx, sy, n, fun _ _ => 0⟩

/-- Modelled from the spec: `copyImage` of imageProc, which is not in this file;
a fresh copy of its argument. -/
def copyImage (a : image) : image := a

/-- Modelled from the spec: `image_scale` of imageProc, which is not in this
file; `dst[p] *= scalar` for every pixel and channel. -/
def image_scale (dst : image) (scalar : ℚ) : image :=
  { dst with layers := fun c p => dst.layers c p * scalar }

/-- Modelled from the spec: `pointwise_add` of imageProc, which is not in this
file; `dst[p] += src[p]` for every pixel and channel when geometry and channel
count are identical. For any other pair the spec leaves the result undefined;
the model returns `dst` as it was, and the results about samples use the branch
of identical geometry only. -/
def pointwise_add (dst src : image) : image :=
  if sameGeometry dst src then
    { dst with layers := fun c p => dst.layers c p + src.layers c p }
  else dst

/-- Modelled from the spec: `pointwise_div` of imageProc, which is not in this
file; `dst[p] /= src[p]` for every pixel and channel, a zero divisor giving 0. -/
def pointwise_div (dst src : image) : image :=
  if sameGeometry dst src then
    { dst with layers := fun c p =>
        if src.layers c p = 0 then 0 else dst.layers c p / src.layers c p }
  else dst

/-- The call `memcpy(t->layers[c], src, n*sizeof(double))`. -/
def memcpyLayer (t : image) (c : Nat) (src : Nat → ℚ) (n : Nat) : image :=
  { t with layers := fun d p => if d = c ∧ p < n then src p else t.layers d p }

/-- The divisor `t1` of the normalisation: a new `sx` by `sy` image of three
layers, each filled from layer 0 of the weight level `w`. -/
def broadcast3 (sx sy : Nat) (w : image) : image :=
  memcpyLayer (memcpyLayer (memcpyLayer (newImage sx sy 3) 0 (w.layers 0) (sx * sy))
    1 (w.layers 0) (sx * sy)) 2 (w.layers 0) (sx * sy)

/-- The functions of `imageProc.h` and of the C library whose code is not in
this file and whose result the driver inspects or passes on. -/
structure ImageProc where
  readPPM : List Char → Option image
  computeWeightMap : image → ℚ → ℚ → ℚ → Option image
  LaplacianPyr : image → Nat → Option pyramid
  GaussianPyr : image → Nat → Option pyramid
  weightedPyr : pyramid → pyramid → Option pyramid
  collapsePyr : pyramid → image
  exp : ℚ → ℚ

/-! ## Runs -/

/-- Why a run stopped before the end of the input list: one of the error
returns of the fuse functions, or an access through an invalid pointer. -/
inductive Stop
  | readError
  | weightMapError
  | laplacianError
  | gaussianError
  | weightedError
  | segfault
  deriving DecidableEq, Repr

/-- What a fuse function did: the calls of `writePPM` in order, and the reason
it stopped early (`none` when it returned after the last line). -/
structure Result where
  written : List (List Char × image)
  exit : Option Stop

/-- The program data shared by `main` and the fuse functions. -/
structure Globals where
  srcPath : List Char
  dstPath : List Char
  alphaC : ℚ
  alphaS : ℚ
  alphaE : ℚ
  tau : ℚ
  maxFrames : Int
  srcPyr : List (Option pyramid)
  wgtPyr : List (Option pyramid)
  weights : List ℚ
  sigma : ℚ

/-- The read `*(a+i)`. -/
def load {α : Type} (a : List α) (i : Int) : Except Stop α :=
  if i < 0 then .error .segfault
  else match a[i.toNat]? with
    | some v => .ok v
    | none => .error .segfault

/-- The write `*(a+i)=v`. -/
def store {α : Type} (a : List α) (i : Int) (v : α) : Except Stop (List α) :=
  if i < 0 ∨ (a.length : Int) ≤ i then .error .segfault else .ok (a.set i.toNat v)

/-- The loop `while (fgets(s,2040,f))` around a body that may return early:
the state reached and the reason of the early return, if any. -/
def whileLines {σ : Type} (body : σ → List Char → Except Stop σ) :
    σ → List (List Char) → σ × Option Stop
  | st, [] => (st, none)
  | st, l :: ls =>
    match body st l with
    | .error e => (st, some e)
    | .ok st1 => whileLines body st1 ls

/-- The steps both fuse functions take from a file name to the weighted
Laplacian pyramid `tPyr` and the Gaussian weight pyramid `pyrW` of that frame,
with their error returns in the order of the source. -/
def framePyramids (H : ImageProc) (g : Globals) (s : List Char) :
    Except Stop (pyramid × pyramid) :=
  match H.readPPM s with
  | none => .error .readError
  | some im =>
    match H.computeWeightMap im g.alphaC g.alphaS g.alphaE with
    | none => .error .weightMapError
    | some wghts =>
      match H.LaplacianPyr im 5 with
      | none => .error .laplacianError
      | some pyrI =>
        match H.GaussianPyr wghts 5 with
        | none => .error .gaussianError
        | some pyrW =>
          match H.weightedPyr pyrI pyrW with
          | none => .error .weightedError
          | some tPyr => .ok (tPyr, pyrW)

/-- The accumulators allocated for a frame whose weighted pyramid is `tPyr`:
`fPyr` of three layers and `wPyr` of one layer, level by level of the size of
`tPyr`. -/
def allocAccumulators (tPyr : pyramid) : pyramid × pyramid :=
  (⟨tPyr.images.map fun t => newImage t.sx t.sy 3⟩,
   ⟨tPyr.images.map fun t => newImage t.sx t.sy 1⟩)

/-- The call `pointwise_add(*(dst->images+i),*(src->images+i))`. -/
def addLevel (dst src : pyramid) (i : Nat) : Except Stop pyramid :=
  (load dst.images i).bind fun d =>
    (load src.images i).bind fun s =>
      .ok ⟨dst.images.set i (pointwise_add d s)⟩

/-- The first `n` rounds of the loop of `ExposureFuse` that adds `tPyr` onto
`fPyr` and `pyrW` onto `wPyr`. -/
def accumulate (tPyr pyrW : pyramid) : Nat → pyramid × pyramid → Except Stop (pyramid × pyramid)
  | 0, acc => .ok acc
  | i + 1, acc =>
    (accumulate tPyr pyrW i acc).bind fun a =>
      (addLevel a.1 tPyr i).bind fun f =>
        (addLevel a.2 pyrW i).bind fun w => .ok (f, w)

/-- The first `n` rounds of the loop that divides every level of `fPyr` by the
level of `wPyr` broadcast to three layers. `ExposureFuse` sizes the divisor by
the level of `fPyr` (`byW = false`), `TimeLapseFuse` by the level of `wPyr`. -/
def normalize (byW : Bool) : Nat → pyramid × pyramid → Except Stop (pyramid × pyramid)
  | 0, acc => .ok acc
  | i + 1, acc =>
    (normalize byW i acc).bind fun a =>
      (load a.1.images i).bind fun f =>
        (load a.2.images i).bind fun w =>
          let t1 := if byW then broadcast3 w.sx w.sy w else broadcast3 f.sx f.sy w
          .ok (⟨a.1.images.set i (pointwise_div f t1)⟩, a.2)

/-! ## ExposureFuse -/

/-- The body of the `while` loop of `ExposureFuse`; the state is the pair of
accumulators `fPyr`, `wPyr`, `none` while both are NULL. -/
def exposureFrame (H : ImageProc) (g : Globals) (acc : Option (pyramid × pyramid))
    (line : List Char) : Except Stop (Option (pyramid × pyramid)) :=
  (framePyramids H g (trimEOL line)).bind fun pw =>
    let acc0 := match acc with
      | none => allocAccumulators pw.1
      | some a => a
    (accumulate pw.1 pw.2 pw.1.levels acc0).map some

/-- The function `ExposureFuse` run on the lines of `inputList.txt`. -/
def ExposureFuse (H : ImageProc) (g : Globals) (lines : List (List Char)) : Result :=
  match whileLines (exposureFrame H g) none lines with
  | (_, some e) => ⟨[], some e⟩
  | (none, none) => ⟨[], some .segfault⟩
  | (some acc, none) =>
    match normalize false acc.1.levels acc with
    | .error e => ⟨[], some e⟩
    | .ok a => ⟨[(expFusionName g.dstPath, H.collapsePyr a.1)], none⟩

/-! ## TimeLapseFuse -/

/-- The window arrays `srcPyr` and `wgtPyr`. -/
structure Window where
  srcPyr : List (Option pyramid)
  wgtPyr : List (Option pyramid)

/-- The state of the `while` loop of `TimeLapseFuse`: the window, the counter
`frameNo` (an `int` that a run would need 2^31 frames to overflow, here a natural
number) and the calls of `writePPM` so far. -/
structure TLState where
  win : Window
  frameNo : Nat
  written : List (List Char × image)

/-- The first `n` rounds of the loop that fills `weights`. -/
def computeWeights (H : ImageProc) (sigma : ℚ) : Nat → List ℚ → Except Stop (List ℚ)
  | 0, w => .ok w
  | i + 1, w =>
    (computeWeights H sigma i w).bind fun w1 => store w1 i (H.exp (weightArg sigma i))

/-- The loop `for (i=maxFrames-1;i>0;i--)` entered with index `i`. -/
def shiftLoop : Nat → Window → Except Stop Window
  | 0, w => .ok w
  | i + 1, w =>
    (load w.srcPyr i).bind fun a =>
      (store w.srcPyr ((i : Int) + 1) a).bind fun src =>
        (load w.wgtPyr i).bind fun b =>
          (store w.wgtPyr ((i : Int) + 1) b).bind fun wgt => shiftLoop i ⟨src, wgt⟩

/-- The first part of the loop body: the oldest pair is read for deletion, the
others move by one slot, and the pair of the new frame goes to slot 0. It
returns the new window and the weighted pyramid of the new frame. -/
def insertFrame (H : ImageProc) (g : Globals) (win : Window) (line : List Char) :
    Except Stop (Window × pyramid) :=
  (load win.srcPyr (g.maxFrames - 1)).bind fun _ =>
    (load win.wgtPyr (g.maxFrames - 1)).bind fun _ =>
      (shiftLoop (g.maxFrames - 1).toNat win).bind fun w1 =>
        (framePyramids H g (trimEOL line)).bind fun pw =>
          (store w1.wgtPyr 0 (some pw.2)).bind fun wgt =>
            (store w1.srcPyr 0 (some pw.1)).bind fun src => .ok (⟨src, wgt⟩, pw.1)

/-- The first `n` rounds of an inner loop of the blend: a copy of level `j` of
the slot is scaled by `weights[i]` and added onto level `j` of `dst`. -/
def scaleAddLevels (slot : Option pyramid) (weights : List ℚ) (i : Nat) :
    Nat → pyramid → Except Stop pyramid
  | 0, dst => .ok dst
  | j + 1, dst =>
    (scaleAddLevels slot weights i j dst).bind fun d =>
      match slot with
      | none => .error .segfault
      | some tPyr =>
        (load tPyr.images j).bind fun s =>
          (load weights i).bind fun k =>
            (load d.images j).bind fun a =>
              .ok ⟨d.images.set j (pointwise_add a (image_scale (copyImage s) k))⟩

/-- The loop `for (i=0;i<maxFrames;i++)` of the blend entered with index `i`
and `n` rounds to go; an empty slot of `srcPyr` leaves the loop. -/
def blend (win : Window) (weights : List ℚ) :
    Nat → Nat → pyramid × pyramid → Except Stop (pyramid × pyramid)
  | 0, _, acc => .ok acc
  | n + 1, i, acc =>
    (load win.srcPyr i).bind fun slot =>
      match slot with
      | none => .ok acc
      | some tPyr =>
        (scaleAddLevels (some tPyr) weights i acc.1.levels acc.1).bind fun f =>
          (load win.wgtPyr i).bind fun wslot =>
            (scaleAddLevels wslot weights i acc.2.levels acc.2).bind fun w =>
              blend win weights n (i + 1) (f, w)

/-- The body of the `while` loop of `TimeLapseFuse`. -/
def timeLapseFrame (H : ImageProc) (g : Globals) (weights : List ℚ) (st : TLState)
    (line : List Char) : Except Stop TLState :=
  (insertFrame H g st.win line).bind fun wt =>
    (blend wt.1 weights g.maxFrames.toNat 0 (allocAccumulators wt.2)).bind fun acc =>
      (normalize true acc.1.levels acc).bind fun a =>
        .ok ⟨wt.1, st.frameNo + 1,
          st.written ++ [(tlfName g.dstPath st.frameNo, H.collapsePyr a.1)]⟩

/-- The first `n` rounds of the final loop that deletes what the window holds. -/
def cleanUp (win : Window) : Nat → Except Stop Unit
  | 0 => .ok ()
  | i + 1 =>
    (cleanUp win i).bind fun _ =>
      (load win.srcPyr i).bind fun _ => (load win.wgtPyr i).bind fun _ => .ok ()

/-- The function `TimeLapseFuse` run on the lines of `inputList.txt`. -/
def TimeLapseFuse (H : ImageProc) (g : Globals) (lines : List (List Char)) : Result :=
  match computeWeights H g.sigma g.maxFrames.toNat g.weights with
  | .error e => ⟨[], some e⟩
  | .ok weights =>
    match whileLines (timeLapseFrame H g weights) ⟨⟨g.srcPyr, g.wgtPyr⟩, 0, []⟩ lines with
    | (st, some e) => ⟨st.written, some e⟩
    | (st, none) =>
      match cleanUp st.win g.maxFrames.toNat with
      | .error e => ⟨st.written, some e⟩
      | .ok _ => ⟨st.written, none⟩

/-! ## main -/

/-- The command line as `main` reads it: `argc` and the six arguments, the
numeric ones as `atof` returns them. -/
structure Argv where
  argc : Nat
  srcPath : List Char
  dstPath : List Char
  alphaC : ℚ
  alphaS : ℚ
  alphaE : ℚ
  tau : ℚ

/-- How `main` ended: on the usage message, on the alpha range message, or after
the call of one of the two fuse functions with the program data `g`. -/
inductive MainExit
  | usage
  | alphaRange
  | ranTimeLapseFuse (g : Globals) (r : Result)
  | ranExposureFuse (g : Globals) (r : Result)

/-- The value `main` gives `maxFrames`. -/
def mainMaxFrames (tau : ℚ) : Int := if 0 ≤ tau then toInt (roundHalfAway tau) else -1

/-- The value `main` gives `sigma`. -/
def mainSigma (tau : ℚ) : ℚ := if 0 ≤ tau then tau / 3 else -1

/-- The program data when `main` calls a fuse function: the three arrays have
`maxFrames` zeroed slots when `maxFrames>0` and are NULL otherwise. -/
def mainGlobals (a : Argv) : Globals :=
  let maxFrames := mainMaxFrames a.tau
  let n := if 0 < maxFrames then maxFrames.toNat else 0
  { srcPath := a.srcPath.take 2040
    dstPath := a.dstPath.take 2040
    alphaC := a.alphaC
    alphaS := a.alphaS
    alphaE := a.alphaE
    tau := a.tau
    maxFrames := maxFrames
    srcPyr := List.replicate n none
    wgtPyr := List.replicate n none
    weights := List.replicate n 0
    sigma := mainSigma a.tau }

/-- The function `main`; `lines` is what `find` and `sort` list for the source
path. -/
def main (H : ImageProc) (a : Argv) (lines : List (List Char)) : MainExit :=
  if a.argc ≠ 7 then .usage
  else if a.alphaC < 0 ∨ a.alphaS < 0 ∨ a.alphaE < 0 ∨
      10 < a.alphaC ∨ 10 < a.alphaS ∨ 10 < a.alphaE then .alphaRange
  else if 0 ≤ a.tau then .ranTimeLapseFuse (mainGlobals a) (TimeLapseFuse H (mainGlobals a) lines)
  else .ranExposureFuse (mainGlobals a) (ExposureFuse H (mainGlobals a) lines)

/-! ## A small instance of the helper functions

Used to run the model on concrete input lists. Its pyramids halve the size of
the image at every level and stop at the requested depth or at one pixel. -/

/-- An image all of whose samples are `v`. -/
def constImage (sx sy n : Nat) (v : ℚ) : image := ⟨sx, sy, n, fun _ _ => v⟩

/-- The levels of a pyramid of depth at most `n` over `im`. -/
def halvings (im : image) : Nat → List image
  | 0 => []
  | k + 1 =>
    im :: (if im.sx ≤ 1 ∨ im.sy ≤ 1 then []
      else halvings ⟨(im.sx + 1) / 2, (im.sy + 1) / 2, im.nlayers, im.layers⟩ k)

/-- Helper functions that read `a.ppm` as a 32 by 32 image, `b.ppm` as a 4 by 4
image and nothing else. -/
def sampleProc : ImageProc where
  readPPM := fun s =>
    if s = "a.ppm".toList then some (constImage 32 32 3 1)
    else if s = "b.ppm".toList then some (constImage 4 4 3 1)
    else none
  computeWeightMap := fun im _ _ _ => some (constImage im.sx im.sy 1 1)
  LaplacianPyr := fun im n => some ⟨halvings im n⟩
  GaussianPyr := fun im n => some ⟨halvings im n⟩
  weightedPyr := fun pyrI _ => some pyrI
  collapsePyr := fun p => p.images.headD (newImage 0 0 3)
  exp := fun _ => 1

/-- The command line `TimeLapseFusion src/ out/ 1 1 1 tau`. -/
def sampleArgv (tau : ℚ) : Argv :=
  ⟨7, "src/".toList, "out/".toList, 1, 1, 1, tau⟩

/-- The program data for a window of two frames and destination `out/`. -/
def sampleGlobals : Globals where
  srcPath := "src/".toList
  dstPath := "out/".toList
  alphaC := 1
  alphaS := 1
  alphaE := 1
  tau := 2
  maxFrames := 2
  srcPyr := [none, none]
  wgtPyr := [none, none]
  weights := [0, 0]
  sigma := 2 / 3

/-- The pyramids `sampleProc` builds for `a.ppm`. -/
def pyramidsA : pyramid × pyramid :=
  (⟨halvings (constImage 32 32 3 1) 5⟩, ⟨halvings (constImage 32 32 1 1) 5⟩)

/-- The level sizes of the pyramids of `a.ppm`. -/
def geoA : List (Nat × Nat) := [(32, 32), (16, 16), (8, 8), (4, 4), (2, 2)]

/-- The state of the loop of `TimeLapseFuse` after the line of `a.ppm`. -/
def stateA : TLState :=
  (whileLines (timeLapseFrame sampleProc sampleGlobals [1, 1 / 2])
    ⟨⟨sampleGlobals.srcPyr, sampleGlobals.wgtPyr⟩, 0, []⟩ ["a.ppm\n".toList]).1

/-- The window holding the pyramids of `a.ppm` in both slots. -/
def windowAA : Window :=
  ⟨[some pyramidsA.1, some pyramidsA.1], [some pyramidsA.2, some pyramidsA.2]⟩

/-! ## Functions used to state the results of the loops -/

/-- Width, height and number of layers of an image. -/
def shape (im : image) : Nat × Nat × Nat := (im.sx, im.sy, im.nlayers)

/-- Level `j` of a pyramid. -/
def pyramid.level (p : pyramid) (j : Nat) : image := p.images.getD j (newImage 0 0 0)

/-- The levels `dst` after `f` has combined each of the first `n` with the level
of `src` of the same index: what a loop `for (j=0;j<n;j++)` over two pyramids
leaves in the first one. -/
def zipLevels (f : image → image → image) (n : Nat) (dst src : List image) : List image :=
  List.zipWith f (dst.take n) src ++ dst.drop n

/-- The levels `acc` after every source of the list, in order, was combined
into their first `L` levels by `op`. -/
def foldLevels {α : Type} (op : α → image → image → image) (L : Nat) (acc : List image)
    (srcs : List (α × List image)) : List image :=
  srcs.foldl (fun a ks => zipLevels (op ks.1) L a ks.2) acc

/-- The operation of the blend on one level: add a copy scaled by `k`. -/
def scaleAdd (k : ℚ) (a b : image) : image := pointwise_add a (image_scale (copyImage b) k)

/-- The operation of the normalisation on one level. -/
def divideBy (byW : Bool) (f w : image) : image :=
  pointwise_div f (if byW then broadcast3 w.sx w.sy w else broadcast3 f.sx f.sy w)

/-- The content of a window array of `n` slots after the frames whose pyramids
are `ps`, oldest first: newest first, then empty slots. -/
def windowOf (n : Nat) (ps : List pyramid) : List (Option pyramid) :=
  ((ps.reverse.map some) ++ List.replicate n none).take n

/-- What holds of the state of the loop of `TimeLapseFuse` after the lines `done`
when the window has `n+1` slots: every line gave its pyramids, each satisfying
`Q`; the window holds the newest of them, the frame counter is the number of
lines and the images written so far are named by the numbers below it. -/
def RunInv (H : ImageProc) (g : Globals) (n : Nat) (Q : pyramid × pyramid → Prop)
    (done : List (List Char)) (st : TLState) : Prop :=
  ∃ pws : List (pyramid × pyramid),
    done.map (fun l => framePyramids H g (trimEOL l)) = pws.map Except.ok ∧
    (∀ pw ∈ pws, Q pw) ∧
    st.win.srcPyr = windowOf (n + 1) (pws.map Prod.fst) ∧
    st.win.wgtPyr = windowOf (n + 1) (pws.map Prod.snd) ∧
    st.frameNo = done.length ∧
    st.written.map Prod.fst = (List.range done.length).map (tlfName g.dstPath)

/-- Both pyramids of a frame have `L` levels. -/
def sameDepth (L : Nat) (pw : pyramid × pyramid) : Prop := pw.1.levels = L ∧ pw.2.levels = L

/-- The accumulators `fPyr`, `wPyr` of `ExposureFuse` after the frames with pyramids `pws`,
allocated for the frame `pw0`. -/
def accumulated (L : Nat) (pw0 : pyramid × pyramid) (pws : List (pyramid × pyramid)) :
    pyramid × pyramid :=
  (⟨foldLevels (fun (_ : Unit) => pointwise_add) L (allocAccumulators pw0.1).1.images
      (pws.map fun x => ((), x.1.images))⟩,
   ⟨foldLevels (fun (_ : Unit) => pointwise_add) L (allocAccumulators pw0.1).2.images
      (pws.map fun x => ((), x.2.images))⟩)

/-- The state of the loop of `ExposureFuse` after the frames with pyramids `pws`. -/
def accumulatedState (L : Nat) : List (pyramid × pyramid) → Option (pyramid × pyramid)
  | [] => none
  | pw0 :: rest => some (accumulated L pw0 (pw0 :: rest))

/-- What holds of the state of the loop of `ExposureFuse` after the lines `done`:
every line gave its pyramids, each of depth `L`, and the accumulators hold their
level-wise sums. -/
def ExpInv (H : ImageProc) (g : Globals) (L : Nat) (done : List (List Char))
    (acc : Option (pyramid × pyramid)) : Prop :=
  ∃ pws : List (pyramid × pyramid),
    done.map (fun l => framePyramids H g (trimEOL l)) = pws.map Except.ok ∧
    (∀ pw ∈ pws, sameDepth L pw) ∧ acc = accumulatedState L pws

/-- The pyramids of a frame have the level sizes `geo`, with three layers in
every level of `tPyr` and one in every level of `pyrW`. -/
def hasGeometry (geo : List (Nat × Nat)) (pw : pyramid × pyramid) : Prop :=
  pw.1.images.map shape = geo.map (fun d => (d.1, d.2, 3)) ∧
  pw.2.images.map shape = geo.map (fun d => (d.1, d.2, 1))

/-- Sample `p` of layer `c` of level `j` of the pyramid in a window slot; an
empty slot contributes nothing. -/
def slotSample (slot : Option pyramid) (j c p : Nat) : ℚ :=
  match slot with
  | some s => (s.level j).layers c p
  | none => 0

/-! ## Array accesses -/

theorem load_ok {α : Type} (a : List α) (i : Nat) (v : α) (h : a[i]? = some v) :
    load a (i : Int) = .ok v := by
  simp [load, h]

theorem load_neg {α : Type} (a : List α) (i : Int) (h : i < 0) :
    load a i = .error .segfault := by
  simp [load, h]

theorem store_ok {α : Type} (a : List α) (i : Nat) (v : α) (h : i < a.length) :
    store a (i : Int) v = .ok (a.set i v) := by
  simp [store, h]

theorem store_ok_succ {α : Type} (a : List α) (i : Nat) (v : α) (h : i + 1 < a.length) :
    store a ((i : Int) + 1) v = .ok (a.set (i + 1) v) := by
  have := store_ok a (i + 1) v h
  simpa using this

/-! ## The end-of-line removal -/

theorem trimEOL_lower (path : List Char) :
    trimEOL (path ++ ".ppm\n".toList) = path ++ ".ppm".toList := by
  have h1 : (path ++ ".ppm\n".toList).length - 1 = (path.length + 3) + 1 := by
    simp
  have e4 : path.length + 3 + 1 - path.length = 4 := by omega
  have e3 : path.length + 2 + 1 - path.length = 3 := by omega
  have e5 : path.length + 2 + 2 - path.length = 4 := by omega
  have h2 : (path ++ ".ppm\n".toList)[path.length + 3 + 1]? = some '\n' := by
    rw [List.getElem?_append_right (by omega), e4]
    rfl
  have h3 : (path ++ ".ppm\n".toList)[path.length + 2 + 1]? = some 'm' := by
    rw [List.getElem?_append_right (by omega), e3]
    rfl
  rw [trimEOL, h1, trimScan, h2]
  rw [if_neg (by decide), trimScan, h3, if_pos rfl]
  rw [List.take_append_eq_append_take, e5, List.take_of_length_le (by omega)]
  rfl

/-- C9: a listed line ending in `.ppm` and a newline is trimmed to the path, but
a line ending in `.PPM` is not: with no lower-case `m` in it the line keeps its
newline, and with one further left it is cut right after that `m`. -/
theorem trimEOL_upper_case (path : List Char) :
    trimEOL (path ++ ".ppm\n".toList) = path ++ ".ppm".toList ∧
    trimEOL "./src/IMG_0001.PPM\n".toList = "./src/IMG_0001.PPM\n".toList ∧
    trimEOL "./frames/IMG_0001.PPM\n".toList = "./fram".toList := by
  refine ⟨trimEOL_lower path, ?_, ?_⟩ <;> decide

/-! ## The choices of main -/

theorem roundHalfAway_nonneg_bounds (x : ℚ) (hx : 0 ≤ x) :
    (roundHalfAway x : ℚ) ≤ x + 1 / 2 ∧ x + 1 / 2 < (roundHalfAway x : ℚ) + 1 ∧
      0 ≤ roundHalfAway x := by
  unfold roundHalfAway
  rw [if_pos hx]
  refine ⟨Int.floor_le _, Int.lt_floor_add_one _, ?_⟩
  apply Int.floor_nonneg.mpr
  linarith

theorem toInt_of_le (z : Int) (h0 : 0 ≤ z) (h1 : z ≤ INT_MAX) : toInt z = z := by
  unfold toInt
  rw [if_pos]
  refine ⟨?_, h1⟩
  unfold INT_MIN
  omega

/-- C1: with seven arguments and alphas in [0,10], `main` runs `ExposureFuse`
when `tau<0`, and when `tau>=0` it runs `TimeLapseFuse` with `maxFrames` the
`int` taken from `round(tau)` and `sigma = tau/3`; `round(tau)` is the integer
`m` with `m - 1/2 <= tau < m + 1/2`, and `maxFrames` equals it whenever it fits
an `int`. -/
theorem main_selects (H : ImageProc) (a : Argv) (lines : List (List Char))
    (hargc : a.argc = 7)
    (hC : 0 ≤ a.alphaC ∧ a.alphaC ≤ 10) (hS : 0 ≤ a.alphaS ∧ a.alphaS ≤ 10)
    (hE : 0 ≤ a.alphaE ∧ a.alphaE ≤ 10) :
    (a.tau < 0 →
      main H a lines = .ranExposureFuse (mainGlobals a) (ExposureFuse H (mainGlobals a) lines)) ∧
    (0 ≤ a.tau →
      main H a lines
        = .ranTimeLapseFuse (mainGlobals a) (TimeLapseFuse H (mainGlobals a) lines) ∧
      (mainGlobals a).maxFrames = toInt (roundHalfAway a.tau) ∧
      (mainGlobals a).sigma = a.tau / 3 ∧
      ((roundHalfAway a.tau : ℚ) - 1 / 2 ≤ a.tau ∧ a.tau < (roundHalfAway a.tau : ℚ) + 1 / 2) ∧
      (roundHalfAway a.tau ≤ INT_MAX → (mainGlobals a).maxFrames = roundHalfAway a.tau)) := by
  have hrange : ¬ (a.alphaC < 0 ∨ a.alphaS < 0 ∨ a.alphaE < 0 ∨
      10 < a.alphaC ∨ 10 < a.alphaS ∨ 10 < a.alphaE) := by
    rintro (h | h | h | h | h | h) <;> linarith [hC.1, hC.2, hS.1, hS.2, hE.1, hE.2]
  constructor
  · intro ht
    have : ¬ (0 ≤ a.tau) := not_le.mpr ht
    simp [main, hargc, hrange, this]
  · intro ht
    obtain ⟨b1, b2, b3⟩ := roundHalfAway_nonneg_bounds a.tau ht
    refine ⟨?_, ?_, ?_, ⟨?_, ?_⟩, ?_⟩
    · simp [main, hargc, hrange, ht]
    · simp [mainGlobals, mainMaxFrames, ht]
    · simp [mainGlobals, mainSigma, ht]
    · linarith
    · linarith
    · intro hle
      simp only [mainGlobals, mainMaxFrames, if_pos ht]
      exact toInt_of_le _ b3 hle

theorem main_selects_witness :
    (sampleArgv 3).argc = 7 ∧
    ((3 : ℚ) < 0 →
      main sampleProc (sampleArgv 3) []
        = .ranExposureFuse (mainGlobals (sampleArgv 3))
            (ExposureFuse sampleProc (mainGlobals (sampleArgv 3)) [])) ∧
    ((0 : ℚ) ≤ 3 →
      main sampleProc (sampleArgv 3) []
        = .ranTimeLapseFuse (mainGlobals (sampleArgv 3))
            (TimeLapseFuse sampleProc (mainGlobals (sampleArgv 3)) []) ∧
      (mainGlobals (sampleArgv 3)).maxFrames = toInt (roundHalfAway 3) ∧
      (mainGlobals (sampleArgv 3)).sigma = 3 / 3 ∧
      ((roundHalfAway 3 : ℚ) - 1 / 2 ≤ 3 ∧ (3 : ℚ) < (roundHalfAway 3 : ℚ) + 1 / 2) ∧
      (roundHalfAway 3 ≤ INT_MAX → (mainGlobals (sampleArgv 3)).maxFrames = roundHalfAway 3)) :=
  ⟨rfl, main_selects sampleProc (sampleArgv 3) [] rfl
    (by norm_num [sampleArgv]) (by norm_num [sampleArgv]) (by norm_num [sampleArgv])⟩

/-! ## The weights and the window arrays -/

theorem computeWeights_eq (H : ImageProc) (sigma : ℚ) (n : Nat) (w : List ℚ) (h : n ≤ w.length) :
    computeWeights H sigma n w
      = .ok ((List.range n).map (fun i : Nat => H.exp (weightArg sigma (i : Int))) ++ w.drop n) := by
  induction n with
  | zero => simp [computeWeights]
  | succ n ih =>
    have hn : n < w.length := h
    rw [computeWeights, ih (by omega)]
    simp only [Except.bind]
    rw [store_ok _ _ _ (by simp; omega)]
    congr 1
    rw [List.range_succ, List.map_append, List.append_assoc]
    rw [List.set_append_right _ _ (by simp)]
    simp only [List.length_map, List.length_range, Nat.sub_self, List.map_cons, List.map_nil,
      List.cons_append, List.nil_append, List.append_cancel_left_eq]
    rw [List.drop_eq_getElem_cons hn]
    rfl

theorem timeLapse_no_window (H : ImageProc) (g : Globals) (l : List Char) (ls : List (List Char))
    (h : g.maxFrames ≤ 0) : TimeLapseFuse H g (l :: ls) = ⟨[], some .segfault⟩ := by
  have h0 : g.maxFrames.toNat = 0 := by omega
  have h1 : g.maxFrames - 1 < 0 := by omega
  simp [TimeLapseFuse, h0, computeWeights, whileLines, timeLapseFrame, insertFrame,
    load_neg _ _ h1, Except.bind]


theorem roundHalfAway_natCast (n : Nat) : roundHalfAway (n : ℚ) = n := by
  unfold roundHalfAway
  rw [if_pos (by positivity)]
  rw [Int.floor_eq_iff]
  constructor <;> push_cast <;> linarith

theorem mainMaxFrames_natCast (n : Nat) (h : (n : Int) ≤ INT_MAX) :
    mainMaxFrames (n : ℚ) = n := by
  unfold mainMaxFrames
  rw [if_pos (by positivity), roundHalfAway_natCast]
  exact toInt_of_le _ (by positivity) h

theorem mainGlobals_arrays (a : Argv) :
    (mainGlobals a).srcPyr = List.replicate (mainGlobals a).maxFrames.toNat none ∧
    (mainGlobals a).wgtPyr = List.replicate (mainGlobals a).maxFrames.toNat none ∧
    (mainGlobals a).weights = List.replicate (mainGlobals a).maxFrames.toNat 0 := by
  have h : (if 0 < mainMaxFrames a.tau then (mainMaxFrames a.tau).toNat else 0)
      = (mainMaxFrames a.tau).toNat := by
    split_ifs with h
    · rfl
    · omega
  simp only [mainGlobals, h]
  exact ⟨trivial, trivial, trivial⟩

/-- C7: for `tau = 46342` (so `maxFrames = 46342`, `sigma = 46342/3`) the entry
`weights[46341]` is `exp` of the positive number `1136900655/252656584`, not of
`-46341^2/(2 sigma^2)`: the `int` product `46341*46341` wraps to a negative value.
The entry exceeds `weights[0] = exp 0`, so the coefficients do not decay. -/
theorem weights_overflow (H : ImageProc) :
    (mainGlobals (sampleArgv 46342)).maxFrames = 46342 ∧
    (mainGlobals (sampleArgv 46342)).sigma = 46342 / 3 ∧
    (∃ w, computeWeights H (mainGlobals (sampleArgv 46342)).sigma
          (mainGlobals (sampleArgv 46342)).maxFrames.toNat
          (mainGlobals (sampleArgv 46342)).weights = .ok w ∧
        w[0]? = some (H.exp 0) ∧ w[46341]? = some (H.exp (1136900655 / 252656584))) ∧
    weightArg (46342 / 3) 46341 ≠ -(46341 * 46341) / (2 * (46342 / 3) * (46342 / 3)) ∧
    Real.exp ((0 : ℚ) : ℝ) < Real.exp ((1136900655 / 252656584 : ℚ) : ℝ) := by
  have hm : mainMaxFrames (sampleArgv 46342).tau = 46342 := by
    have := mainMaxFrames_natCast 46342 (by decide)
    simpa [sampleArgv] using this
  have hs : mainSigma (sampleArgv 46342).tau = 46342 / 3 := by
    simp [mainSigma, sampleArgv]
  have ha : weightArg (46342 / 3) 46341 = 1136900655 / 252656584 := by
    norm_num [weightArg, wrap32]
  have h0 : weightArg (46342 / 3) 0 = 0 := by
    norm_num [weightArg, wrap32]
  refine ⟨hm, hs, ?_, ?_, ?_⟩
  · refine ⟨_, computeWeights_eq H _ _ _
      (by rw [(mainGlobals_arrays _).2.2, List.length_replicate]), ?_, ?_⟩
    · have e : (mainGlobals (sampleArgv 46342)).maxFrames.toNat = 46342 := by
        show (mainMaxFrames (sampleArgv 46342).tau).toNat = 46342
        rw [hm]; rfl
      have e2 : (mainGlobals (sampleArgv 46342)).sigma = 46342 / 3 := hs
      rw [e, e2, List.getElem?_append_left (by rw [List.length_map, List.length_range]; decide),
        List.getElem?_map, List.getElem?_range (by decide)]
      simp only [Option.map_some', Nat.cast_ofNat, Nat.cast_zero, h0]
    · have e : (mainGlobals (sampleArgv 46342)).maxFrames.toNat = 46342 := by
        show (mainMaxFrames (sampleArgv 46342).tau).toNat = 46342
        rw [hm]; rfl
      have e2 : (mainGlobals (sampleArgv 46342)).sigma = 46342 / 3 := hs
      rw [e, e2, List.getElem?_append_left (by rw [List.length_map, List.length_range]; decide),
        List.getElem?_map, List.getElem?_range (by decide)]
      simp only [Option.map_some', Nat.cast_ofNat, ha]
  · rw [ha]
    norm_num
  · apply Real.exp_lt_exp.mpr
    norm_num

/-- C10: for `tau = 0` `main` calls `TimeLapseFuse` with `maxFrames = 0` and the
window arrays not allocated; on the first listed line the eviction reads index
`maxFrames-1 = -1` and the run stops on that access with nothing written. -/
theorem window_unallocated (line : List Char) :
    main sampleProc (sampleArgv 0) [line]
      = .ranTimeLapseFuse (mainGlobals (sampleArgv 0))
          (TimeLapseFuse sampleProc (mainGlobals (sampleArgv 0)) [line]) ∧
    (mainGlobals (sampleArgv 0)).maxFrames = 0 ∧
    (mainGlobals (sampleArgv 0)).srcPyr = [] ∧
    (mainGlobals (sampleArgv 0)).wgtPyr = [] ∧
    load (mainGlobals (sampleArgv 0)).srcPyr ((mainGlobals (sampleArgv 0)).maxFrames - 1)
      = .error .segfault ∧
    TimeLapseFuse sampleProc (mainGlobals (sampleArgv 0)) [line] = ⟨[], some .segfault⟩ := by
  have hm : mainMaxFrames (sampleArgv 0).tau = 0 := by
    have := mainMaxFrames_natCast 0 (by decide)
    simpa [sampleArgv] using this
  have hg : (mainGlobals (sampleArgv 0)).maxFrames = 0 := by simp [mainGlobals, hm]
  refine ⟨?_, hg, by simp [mainGlobals, hm], by simp [mainGlobals, hm], ?_, ?_⟩
  · simp [main, sampleArgv]
  · rw [hg]; exact load_neg _ _ (by decide)
  · exact timeLapse_no_window _ _ _ _ (by omega)

/-! ## The loops over the levels of a pyramid -/

theorem zipLevels_zero (f : image → image → image) (dst src : List image) :
    zipLevels f 0 dst src = dst := by
  simp [zipLevels]

theorem zipLevels_length (f : image → image → image) (n : Nat) (dst src : List image)
    (h : n ≤ src.length) : (zipLevels f n dst src).length = dst.length := by
  simp [zipLevels]
  omega

theorem zipLevels_getElem? (f : image → image → image) (n : Nat) (dst src : List image)
    (h : n ≤ src.length) (k : Nat) :
    (zipLevels f n dst src)[k]? =
      if k < n then ((dst[k]?.map f).bind fun g => src[k]?.map g) else dst[k]? := by
  unfold zipLevels
  by_cases hk : k < n
  · rw [if_pos hk]
    by_cases hd : k < dst.length
    · rw [List.getElem?_append_left (by simp; omega), List.getElem?_zipWith',
        List.getElem?_take_of_lt hk]
    · have h1 : dst[k]? = none := List.getElem?_eq_none (by omega)
      rw [h1, List.getElem?_eq_none]
      · simp
      · simp only [List.length_append, List.length_zipWith, List.length_take, List.length_drop]
        omega
  · rw [if_neg hk]
    by_cases hd : n ≤ dst.length
    · rw [List.getElem?_append_right (by simp; omega)]
      simp only [List.length_zipWith, List.length_take, List.getElem?_drop]
      congr 1
      omega
    · have h1 : dst[k]? = none := List.getElem?_eq_none (by omega)
      rw [h1, List.getElem?_eq_none]
      simp only [List.length_append, List.length_zipWith, List.length_take, List.length_drop]
      omega

theorem zipLevels_succ (f : image → image → image) (n : Nat) (dst src : List image)
    (a b : image) (ha : dst[n]? = some a) (hb : src[n]? = some b) :
    (zipLevels f n dst src).set n (f a b) = zipLevels f (n + 1) dst src := by
  have hn : n < dst.length := by
    by_contra hh
    rw [List.getElem?_eq_none (by omega)] at ha
    cases ha
  have hm : n < src.length := by
    by_contra hh
    rw [List.getElem?_eq_none (by omega)] at hb
    cases hb
  apply List.ext_getElem?
  intro k
  rw [List.getElem?_set, zipLevels_getElem? f (n + 1) dst src (by omega) k,
    zipLevels_getElem? f n dst src (by omega) k, zipLevels_length f n dst src (by omega)]
  by_cases hk : n = k
  · subst hk
    simp [hn, ha, hb]
  · rw [if_neg hk]
    by_cases h1 : k < n
    · simp [h1, Nat.lt_succ_of_lt h1]
    · have : ¬ k < n + 1 := by omega
      simp [h1, this]


theorem zipLevels_step (f : image → image → image) (n : Nat) (dst src : List image)
    (hn : n < dst.length) (hm : n < src.length) :
    ∃ a b, dst[n]? = some a ∧ src[n]? = some b ∧ (zipLevels f n dst src)[n]? = some a ∧
      (zipLevels f n dst src).set n (f a b) = zipLevels f (n + 1) dst src := by
  refine ⟨dst[n], src[n], List.getElem?_eq_getElem hn, List.getElem?_eq_getElem hm, ?_, ?_⟩
  · rw [zipLevels_getElem? f n dst src (by omega) n, if_neg (by omega)]
    exact List.getElem?_eq_getElem hn
  · exact zipLevels_succ f n dst src _ _ (List.getElem?_eq_getElem hn)
      (List.getElem?_eq_getElem hm)

theorem accumulate_eq (tPyr pyrW : pyramid) (n : Nat) (acc : pyramid × pyramid)
    (h1 : n ≤ tPyr.levels) (h2 : n ≤ pyrW.levels) (h3 : n ≤ acc.1.levels)
    (h4 : n ≤ acc.2.levels) :
    accumulate tPyr pyrW n acc
      = .ok (⟨zipLevels pointwise_add n acc.1.images tPyr.images⟩,
             ⟨zipLevels pointwise_add n acc.2.images pyrW.images⟩) := by
  induction n with
  | zero => simp [accumulate, zipLevels_zero]
  | succ n ih =>
    unfold pyramid.levels at h1 h2 h3 h4 ih
    obtain ⟨a, b, ha, hb, hz, hs⟩ :=
      zipLevels_step pointwise_add n acc.1.images tPyr.images (by omega) (by omega)
    obtain ⟨a2, b2, ha2, hb2, hz2, hs2⟩ :=
      zipLevels_step pointwise_add n acc.2.images pyrW.images (by omega) (by omega)
    rw [accumulate, ih (by omega) (by omega) (by omega) (by omega)]
    simp only [Except.bind, addLevel, load_ok _ _ _ hz, load_ok _ _ _ hb, load_ok _ _ _ hz2,
      load_ok _ _ _ hb2, hs, hs2]

theorem scaleAddLevels_eq (s : pyramid) (weights : List ℚ) (i : Nat) (k : ℚ) (n : Nat)
    (dst : pyramid) (hk : weights[i]? = some k) (h1 : n ≤ s.levels) (h2 : n ≤ dst.levels) :
    scaleAddLevels (some s) weights i n dst
      = .ok ⟨zipLevels (scaleAdd k) n dst.images s.images⟩ := by
  induction n with
  | zero => simp [scaleAddLevels, zipLevels_zero]
  | succ n ih =>
    unfold pyramid.levels at h1 h2 ih
    obtain ⟨a, b, ha, hb, hz, hs⟩ :=
      zipLevels_step (scaleAdd k) n dst.images s.images (by omega) (by omega)
    rw [scaleAddLevels, ih (by omega) (by omega)]
    simp only [Except.bind, load_ok _ _ _ hz, load_ok _ _ _ hb, load_ok _ _ _ hk]
    rw [← hs]
    rfl

theorem normalize_eq (byW : Bool) (n : Nat) (acc : pyramid × pyramid)
    (h1 : n ≤ acc.1.levels) (h2 : n ≤ acc.2.levels) :
    normalize byW n acc
      = .ok (⟨zipLevels (divideBy byW) n acc.1.images acc.2.images⟩, acc.2) := by
  induction n with
  | zero => simp [normalize, zipLevels_zero]
  | succ n ih =>
    unfold pyramid.levels at h1 h2 ih
    obtain ⟨a, b, ha, hb, hz, hs⟩ :=
      zipLevels_step (divideBy byW) n acc.1.images acc.2.images (by omega) (by omega)
    rw [normalize, ih (by omega) (by omega)]
    simp only [Except.bind, load_ok _ _ _ hz, load_ok _ _ _ hb]
    rw [← hs]
    rfl

/-! ## The window -/

theorem shift_set_getElem? {α : Type} (l : List α) (i : Nat) (a : α) (ha : l[i]? = some a)
    (k : Nat) (hlen : i + 1 < l.length) :
    (if 1 ≤ k ∧ k ≤ i then (l.set (i + 1) a)[k - 1]? else (l.set (i + 1) a)[k]?)
      = if 1 ≤ k ∧ k ≤ i + 1 then l[k - 1]? else l[k]? := by
  simp only [List.getElem?_set]
  by_cases h1 : 1 ≤ k ∧ k ≤ i
  · have h2 : 1 ≤ k ∧ k ≤ i + 1 := ⟨h1.1, by omega⟩
    rw [if_pos h1, if_pos h2, if_neg (by omega)]
  · rw [if_neg h1]
    by_cases h3 : k = i + 1
    · subst h3
      rw [if_pos rfl, if_pos hlen, if_pos (by omega)]
      simpa using ha.symm
    · rw [if_neg (by omega), if_neg (by omega)]

theorem shiftLoop_spec (i : Nat) (w : Window) (hs : i < w.srcPyr.length)
    (hw : i < w.wgtPyr.length) :
    ∃ w1, shiftLoop i w = .ok w1 ∧
      w1.srcPyr.length = w.srcPyr.length ∧ w1.wgtPyr.length = w.wgtPyr.length ∧
      (∀ k, w1.srcPyr[k]? = if 1 ≤ k ∧ k ≤ i then w.srcPyr[k - 1]? else w.srcPyr[k]?) ∧
      (∀ k, w1.wgtPyr[k]? = if 1 ≤ k ∧ k ≤ i then w.wgtPyr[k - 1]? else w.wgtPyr[k]?) := by
  induction i generalizing w with
  | zero =>
    refine ⟨w, rfl, rfl, rfl, ?_, ?_⟩ <;> intro k <;> rw [if_neg (by omega)]
  | succ i ih =>
    have ha := List.getElem?_eq_getElem (show i < w.srcPyr.length by omega)
    have hb := List.getElem?_eq_getElem (show i < w.wgtPyr.length by omega)
    obtain ⟨w1, e, l1, l2, g1, g2⟩ :=
      ih ⟨w.srcPyr.set (i + 1) w.srcPyr[i], w.wgtPyr.set (i + 1) w.wgtPyr[i]⟩
        (by simp; omega) (by simp; omega)
    refine ⟨w1, ?_, by simpa using l1, by simpa using l2, ?_, ?_⟩
    · rw [shiftLoop]
      simp only [Except.bind, load_ok _ _ _ ha, load_ok _ _ _ hb,
        store_ok_succ _ _ _ hs, store_ok_succ _ _ _ hw]
      exact e
    · intro k
      rw [g1 k]
      exact shift_set_getElem? _ _ _ ha k hs
    · intro k
      rw [g2 k]
      exact shift_set_getElem? _ _ _ hb k hw

theorem shift_insert_list {α : Type} (l m : List α) (v : α) (n : Nat)
    (hl : l.length = n + 1) (hm : m.length = n + 1)
    (h : ∀ k, m[k]? = if 1 ≤ k ∧ k ≤ n then l[k - 1]? else l[k]?) :
    m.set 0 v = v :: l.take n := by
  apply List.ext_getElem?
  intro k
  rw [List.getElem?_set]
  cases k with
  | zero => simp [hm]
  | succ k =>
    rw [if_neg (by omega), h (k + 1)]
    simp only [List.getElem?_cons_succ, Nat.add_sub_cancel]
    by_cases hk : k + 1 ≤ n
    · rw [if_pos ⟨by omega, hk⟩, List.getElem?_take_of_lt (by omega)]
    · rw [if_neg (by omega), List.getElem?_eq_none (by omega), List.getElem?_eq_none]
      simp; omega

theorem insertFrame_eq (H : ImageProc) (g : Globals) (win : Window) (line : List Char)
    (n : Nat) (hn : g.maxFrames = (n : Int) + 1) (hs : win.srcPyr.length = n + 1)
    (hw : win.wgtPyr.length = n + 1) :
    insertFrame H g win line
      = (framePyramids H g (trimEOL line)).bind fun pw =>
          .ok (⟨some pw.1 :: win.srcPyr.take n, some pw.2 :: win.wgtPyr.take n⟩, pw.1) := by
  obtain ⟨w1, e, l1, l2, g1, g2⟩ := shiftLoop_spec n win (by omega) (by omega)
  have e1 : g.maxFrames - 1 = (n : Int) := by omega
  have ha := List.getElem?_eq_getElem (show n < win.srcPyr.length by omega)
  have hb := List.getElem?_eq_getElem (show n < win.wgtPyr.length by omega)
  have s1 := store_ok w1.srcPyr 0
  have s2 := store_ok w1.wgtPyr 0
  simp only [Nat.cast_zero] at s1 s2
  rw [insertFrame, e1]
  simp only [Except.bind, load_ok _ _ _ ha, load_ok _ _ _ hb, Int.toNat_ofNat, e]
  cases framePyramids H g (trimEOL line) with
  | error e => rfl
  | ok pw =>
    simp only [s1 _ (by omega), s2 _ (by omega)]
    rw [shift_insert_list win.srcPyr w1.srcPyr _ n hs (by omega) g1,
      shift_insert_list win.wgtPyr w1.wgtPyr _ n hw (by omega) g2]

theorem windowOf_nil (n : Nat) : windowOf n [] = List.replicate n none := by
  simp [windowOf]

theorem windowOf_length (n : Nat) (ps : List pyramid) : (windowOf n ps).length = n := by
  simp [windowOf]

theorem windowOf_snoc (n : Nat) (ps : List pyramid) (p : pyramid) :
    windowOf (n + 1) (ps ++ [p]) = some p :: (windowOf (n + 1) ps).take n := by
  simp [windowOf, List.take_take]

/-! ## The blend and the loop over the lines -/

theorem foldLevels_length {α : Type} (op : α → image → image → image) (L : Nat)
    (srcs : List (α × List image)) (acc : List image)
    (h : ∀ ks ∈ srcs, L ≤ ks.2.length) : (foldLevels op L acc srcs).length = acc.length := by
  induction srcs generalizing acc with
  | nil => rfl
  | cons ks rest ih =>
    have h1 := h ks (List.mem_cons_self _ _)
    have h2 : ∀ x ∈ rest, L ≤ x.2.length := fun x hx => h x (List.mem_cons_of_mem _ hx)
    show (foldLevels op L (zipLevels (op ks.1) L acc ks.2) rest).length = acc.length
    rw [ih _ h2, zipLevels_length _ _ _ _ h1]

theorem blend_eq (win : Window) (weights : List ℚ) (ss ws : List pyramid) (r L : Nat)
    (hsrc : win.srcPyr = ss.map some ++ List.replicate r none)
    (hwgt : win.wgtPyr = ws.map some ++ List.replicate r none)
    (hlen : ws.length = ss.length) (hwl : weights.length = ss.length + r)
    (hsl : ∀ s ∈ ss, L ≤ s.levels) (hwv : ∀ w ∈ ws, L ≤ w.levels) :
    ∀ (fuel i : Nat) (acc : pyramid × pyramid), i + fuel = ss.length + r → i ≤ ss.length →
      acc.1.levels = L → acc.2.levels = L →
      blend win weights fuel i acc
        = .ok (⟨foldLevels scaleAdd L acc.1.images
                  ((weights.drop i).zip ((ss.drop i).map pyramid.images))⟩,
               ⟨foldLevels scaleAdd L acc.2.images
                  ((weights.drop i).zip ((ws.drop i).map pyramid.images))⟩) := by
  intro fuel
  induction fuel with
  | zero =>
    intro i acc h1 h2 _ _
    have e1 : ss.drop i = [] := List.drop_eq_nil_of_le (by omega)
    have e2 : ws.drop i = [] := List.drop_eq_nil_of_le (by omega)
    simp [blend, foldLevels, e1, e2]
  | succ fuel ih =>
    intro i acc h1 h2 h3 h4
    by_cases hi : i < ss.length
    · have hiw : i < ws.length := by omega
      have hik : i < weights.length := by omega
      have g1 : win.srcPyr[i]? = some (some ss[i]) := by
        rw [hsrc, List.getElem?_append_left (by simpa using hi)]
        simp [List.getElem?_eq_getElem hi]
      have g2 : win.wgtPyr[i]? = some (some ws[i]) := by
        rw [hwgt, List.getElem?_append_left (by simpa using hiw)]
        simp [List.getElem?_eq_getElem hiw]
      have g3 : weights[i]? = some weights[i] := List.getElem?_eq_getElem hik
      have l1 : L ≤ ss[i].levels := hsl _ (List.getElem_mem _)
      have l2 : L ≤ ws[i].levels := hwv _ (List.getElem_mem _)
      rw [blend]
      simp only [Except.bind, load_ok _ _ _ g1, load_ok _ _ _ g2]
      rw [scaleAddLevels_eq _ _ _ _ _ _ g3 (by omega) (by omega),
        scaleAddLevels_eq _ _ _ _ _ _ g3 (by omega) (by omega)]
      simp only []
      rw [ih (i + 1) _ (by omega) (by omega)
        (by simp only [pyramid.levels] at *; rw [zipLevels_length _ _ _ _ (by omega)]; omega)
        (by simp only [pyramid.levels] at *; rw [zipLevels_length _ _ _ _ (by omega)]; omega)]
      rw [List.drop_eq_getElem_cons hi, List.drop_eq_getElem_cons hiw,
        List.drop_eq_getElem_cons hik]
      simp only [h3, h4, List.map_cons, List.zip_cons_cons, foldLevels, List.foldl_cons]
    · have hr : i = ss.length := by omega
      have g1 : win.srcPyr[i]? = some none := by
        rw [hsrc, List.getElem?_append_right (by simp; omega)]
        rw [List.getElem?_replicate, if_pos (by simp; omega)]
      have e1 : ss.drop i = [] := List.drop_eq_nil_of_le (by omega)
      have e2 : ws.drop i = [] := List.drop_eq_nil_of_le (by omega)
      rw [blend]
      simp [Except.bind, load_ok _ _ _ g1, foldLevels, e1, e2]

theorem windowOf_split (N : Nat) (ps : List pyramid) :
    windowOf N ps = (ps.reverse.take N).map some ++ List.replicate (N - ps.length) none := by
  unfold windowOf
  rw [List.take_append_eq_append_take, List.map_take, List.take_replicate]
  simp

theorem cleanUp_ok (win : Window) (n : Nat) (h1 : n ≤ win.srcPyr.length)
    (h2 : n ≤ win.wgtPyr.length) : cleanUp win n = .ok () := by
  induction n with
  | zero => rfl
  | succ n ih =>
    have ha := List.getElem?_eq_getElem (show n < win.srcPyr.length by omega)
    have hb := List.getElem?_eq_getElem (show n < win.wgtPyr.length by omega)
    rw [cleanUp, ih (by omega) (by omega)]
    simp only [Except.bind, load_ok _ _ _ ha, load_ok _ _ _ hb]

theorem whileLines_inv {σ : Type} (body : σ → List Char → Except Stop σ)
    (P : List (List Char) → σ → Prop)
    (hstep : ∀ done st l st1, P done st → body st l = .ok st1 → P (done ++ [l]) st1) :
    ∀ (rest done : List (List Char)) (st st1 : σ), P done st →
      whileLines body st rest = (st1, none) → P (done ++ rest) st1 := by
  intro rest
  induction rest with
  | nil =>
    intro done st st1 hP hrun
    simp only [whileLines, Prod.mk.injEq, and_true] at hrun
    subst hrun
    simpa using hP
  | cons l ls ih =>
    intro done st st1 hP hrun
    rw [whileLines] at hrun
    cases hb : body st l with
    | error e => rw [hb] at hrun; simp at hrun
    | ok st2 =>
      rw [hb] at hrun
      have := ih (done ++ [l]) st2 st1 (hstep done st l st2 hP hb) hrun
      simpa using this

theorem whileLines_good {σ : Type} (body : σ → List Char → Except Stop σ)
    (P : List (List Char) → σ → Prop) (good : List (List Char))
    (hstep : ∀ done st l, l ∈ good → P done st → ∃ st1, body st l = .ok st1 ∧ P (done ++ [l]) st1) :
    ∀ (pre : List (List Char)), (∀ l ∈ pre, l ∈ good) → ∀ (done : List (List Char)) (st : σ),
      P done st →
      ∃ st1, P (done ++ pre) st1 ∧
        ∀ rest, whileLines body st (pre ++ rest) = whileLines body st1 rest := by
  intro pre
  induction pre with
  | nil =>
    intro _ done st hP
    exact ⟨st, by simpa using hP, fun rest => rfl⟩
  | cons l ls ih =>
    intro hmem done st hP
    obtain ⟨st1, hb, hP1⟩ := hstep done st l (hmem l (List.mem_cons_self _ _)) hP
    obtain ⟨st2, hP2, hrun⟩ :=
      ih (fun x hx => hmem x (List.mem_cons_of_mem _ hx)) (done ++ [l]) st1 hP1
    refine ⟨st2, by simpa using hP2, fun rest => ?_⟩
    rw [List.cons_append, whileLines, hb]
    exact hrun rest

/-! ## The window invariant -/

theorem windowOf_getElem? (N : Nat) (ps : List pyramid) (i : Nat) (hi : i < N) :
    (windowOf N ps)[i]? = some (if i < ps.length then ps[ps.length - 1 - i]? else none) := by
  rw [windowOf_split]
  by_cases h : i < ps.length
  · rw [if_pos h, List.getElem?_append_left (by simp; omega), List.getElem?_map,
      List.getElem?_take_of_lt hi, List.getElem?_reverse h]
    have : ps.length - 1 - i < ps.length := by omega
    rw [List.getElem?_eq_getElem this]
    rfl
  · rw [if_neg h, List.getElem?_append_right (by simp; omega), List.getElem?_replicate,
      if_pos (by simp; omega)]

theorem timeLapseFrame_ok (H : ImageProc) (g : Globals) (weights : List ℚ) (st st1 : TLState)
    (l : List Char) (hb : timeLapseFrame H g weights st l = .ok st1) :
    ∃ w t a, insertFrame H g st.win l = .ok (w, t) ∧
      st1 = ⟨w, st.frameNo + 1, st.written ++ [(tlfName g.dstPath st.frameNo, H.collapsePyr a)]⟩ := by
  unfold timeLapseFrame at hb
  cases h1 : insertFrame H g st.win l with
  | error e => rw [h1] at hb; simp [Except.bind] at hb
  | ok wt =>
    rw [h1] at hb
    simp only [Except.bind] at hb
    cases h2 : blend wt.1 weights g.maxFrames.toNat 0 (allocAccumulators wt.2) with
    | error e => rw [h2] at hb; simp at hb
    | ok acc =>
      rw [h2] at hb
      simp only [] at hb
      cases h3 : normalize true acc.1.levels acc with
      | error e => rw [h3] at hb; simp at hb
      | ok a =>
        rw [h3] at hb
        simp only [Except.ok.injEq] at hb
        exact ⟨wt.1, wt.2, a.1, rfl, hb.symm⟩

theorem insertFrame_inv (H : ImageProc) (g : Globals) (n : Nat) (Q : pyramid × pyramid → Prop)
    (hn : g.maxFrames = (n : Int) + 1) (done : List (List Char)) (st : TLState) (l : List Char)
    (w : Window) (t : pyramid) (hP : RunInv H g n Q done st)
    (hins : insertFrame H g st.win l = .ok (w, t)) :
    ∃ pws pw, done.map (fun l => framePyramids H g (trimEOL l)) = pws.map Except.ok ∧
      (∀ x ∈ pws, Q x) ∧
      framePyramids H g (trimEOL l) = .ok pw ∧ t = pw.1 ∧
      w.srcPyr = windowOf (n + 1) ((pws ++ [pw]).map Prod.fst) ∧
      w.wgtPyr = windowOf (n + 1) ((pws ++ [pw]).map Prod.snd) ∧
      w.srcPyr = some pw.1 :: st.win.srcPyr.take n ∧
      w.wgtPyr = some pw.2 :: st.win.wgtPyr.take n := by
  obtain ⟨pws, hf, hq, hs, hw, -, -⟩ := hP
  rw [insertFrame_eq H g st.win l n hn (by rw [hs, windowOf_length])
    (by rw [hw, windowOf_length])] at hins
  cases hfp : framePyramids H g (trimEOL l) with
  | error e => rw [hfp] at hins; simp [Except.bind] at hins
  | ok pw =>
    rw [hfp] at hins
    simp only [Except.bind, Except.ok.injEq, Prod.mk.injEq] at hins
    obtain ⟨hw1, ht⟩ := hins
    subst hw1
    refine ⟨pws, pw, hf, hq, rfl, ht.symm, ?_, ?_, rfl, rfl⟩
    · simp only [List.map_append, List.map_cons, List.map_nil]
      rw [windowOf_snoc, hs]
    · simp only [List.map_append, List.map_cons, List.map_nil]
      rw [windowOf_snoc, hw]

theorem timeLapseFrame_inv (H : ImageProc) (g : Globals) (weights : List ℚ) (n : Nat)
    (hn : g.maxFrames = (n : Int) + 1) (done : List (List Char)) (st : TLState) (l : List Char)
    (st1 : TLState) (hP : RunInv H g n (fun _ => True) done st)
    (hb : timeLapseFrame H g weights st l = .ok st1) :
    RunInv H g n (fun _ => True) (done ++ [l]) st1 := by
  obtain ⟨w, t, a, hins, hst⟩ := timeLapseFrame_ok H g weights st st1 l hb
  obtain ⟨pws, pw, hf, -, hfp, -, hs, hw, -, -⟩ := insertFrame_inv H g n _ hn done st l w t hP hins
  obtain ⟨_, _, _, _, _, hfn, hwr⟩ := hP
  subst hst
  refine ⟨pws ++ [pw], ?_, fun _ _ => trivial, hs, hw, ?_, ?_⟩
  · simp [hf, hfp]
  · simp [hfn]
  · simp only [List.map_append, hwr, List.length_append, List.length_singleton,
      List.range_succ, List.map_cons, List.map_nil, hfn]

theorem runInv_init (H : ImageProc) (g : Globals) (n : Nat) (Q : pyramid × pyramid → Prop)
    (hn : g.maxFrames = (n : Int) + 1)
    (hsrc : g.srcPyr = List.replicate g.maxFrames.toNat none)
    (hwgt : g.wgtPyr = List.replicate g.maxFrames.toNat none) :
    RunInv H g n Q [] ⟨⟨g.srcPyr, g.wgtPyr⟩, 0, []⟩ := by
  have e : g.maxFrames.toNat = n + 1 := by omega
  refine ⟨[], rfl, by simp, ?_, ?_, rfl, rfl⟩
  · simp [windowOf_nil, hsrc, e]
  · simp [windowOf_nil, hwgt, e]

/-! ## The frames written by TimeLapseFuse -/

theorem mem_zip_drop_images {α : Type} (ks : α × List image) (ws : List α) (ss : List pyramid)
    (i : Nat) (h : ks ∈ (ws.drop i).zip ((ss.drop i).map pyramid.images)) :
    ∃ s ∈ ss, ks.2 = s.images := by
  have h2 := (List.of_mem_zip h).2
  rw [List.mem_map] at h2
  obtain ⟨s, hs, e⟩ := h2
  exact ⟨s, List.mem_of_mem_drop hs, e.symm⟩

theorem blend_window_ok (weights : List ℚ) (n L : Nat) (pws : List (pyramid × pyramid))
    (win : Window) (t : pyramid)
    (hQ : ∀ x ∈ pws, sameDepth L x) (ht : t.levels = L)
    (hs : win.srcPyr = windowOf (n + 1) (pws.map Prod.fst))
    (hw : win.wgtPyr = windowOf (n + 1) (pws.map Prod.snd))
    (hwl : weights.length = n + 1) :
    ∃ acc a, blend win weights (n + 1) 0 (allocAccumulators t) = .ok acc ∧
      normalize true acc.1.levels acc = .ok a := by
  rw [windowOf_split] at hs hw
  have hsl : ∀ s ∈ ((pws.map Prod.fst).reverse.take (n + 1)), L ≤ s.levels := by
    intro s hs
    have := List.mem_of_mem_take hs
    rw [List.mem_reverse, List.mem_map] at this
    obtain ⟨x, hx, e⟩ := this
    rw [← e, (hQ x hx).1]
  have hwv : ∀ s ∈ ((pws.map Prod.snd).reverse.take (n + 1)), L ≤ s.levels := by
    intro s hs
    have := List.mem_of_mem_take hs
    rw [List.mem_reverse, List.mem_map] at this
    obtain ⟨x, hx, e⟩ := this
    rw [← e, (hQ x hx).2]
  have e1 : (pws.map Prod.snd).length = (pws.map Prod.fst).length := by simp
  have hb := blend_eq win weights _ _ _ L hs (by rw [hw, e1])
    (by simp) (by simp; omega) hsl hwv (n + 1) 0 (allocAccumulators t)
    (by simp; omega) (by omega) (by simp [allocAccumulators, pyramid.levels] at *; exact ht)
    (by simp [allocAccumulators, pyramid.levels] at *; exact ht)
  refine ⟨_, _, hb, normalize_eq true _ _ (le_refl _) ?_⟩
  simp only [pyramid.levels]
  rw [foldLevels_length, foldLevels_length]
  · simp [allocAccumulators]
  · intro ks hks
    obtain ⟨s, hs1, e⟩ := mem_zip_drop_images ks _ _ _ hks
    rw [e]; exact hwv s hs1
  · intro ks hks
    obtain ⟨s, hs1, e⟩ := mem_zip_drop_images ks _ _ _ hks
    rw [e]; exact hsl s hs1

theorem timeLapseFrame_good (H : ImageProc) (g : Globals) (weights : List ℚ) (n L : Nat)
    (hn : g.maxFrames = (n : Int) + 1) (hwl : weights.length = n + 1)
    (done : List (List Char)) (st : TLState) (l : List Char)
    (hP : RunInv H g n (sameDepth L) done st)
    (hl : ∃ pw, framePyramids H g (trimEOL l) = .ok pw ∧ sameDepth L pw) :
    ∃ st1, timeLapseFrame H g weights st l = .ok st1 ∧
      RunInv H g n (sameDepth L) (done ++ [l]) st1 := by
  obtain ⟨pw, hfp, hq⟩ := hl
  obtain ⟨pws, hf, hQ, hs, hw, hfn, hwr⟩ := hP
  have hins := insertFrame_eq H g st.win l n hn (by rw [hs, windowOf_length])
    (by rw [hw, windowOf_length])
  rw [hfp] at hins
  simp only [Except.bind] at hins
  have hQ2 : ∀ x ∈ pws ++ [pw], sameDepth L x := by
    intro x hx
    rcases List.mem_append.mp hx with h | h
    · exact hQ x h
    · rw [List.mem_singleton] at h; rw [h]; exact hq
  have hs2 : (some pw.1 :: st.win.srcPyr.take n) = windowOf (n + 1) ((pws ++ [pw]).map Prod.fst) := by
    simp only [List.map_append, List.map_cons, List.map_nil]
    rw [windowOf_snoc, hs]
  have hw2 : (some pw.2 :: st.win.wgtPyr.take n) = windowOf (n + 1) ((pws ++ [pw]).map Prod.snd) := by
    simp only [List.map_append, List.map_cons, List.map_nil]
    rw [windowOf_snoc, hw]
  obtain ⟨acc, a, hb, hnorm⟩ := blend_window_ok weights n L (pws ++ [pw])
    ⟨some pw.1 :: st.win.srcPyr.take n, some pw.2 :: st.win.wgtPyr.take n⟩ pw.1 hQ2 hq.1
    hs2 hw2 hwl
  have e : g.maxFrames.toNat = n + 1 := by omega
  refine ⟨⟨⟨some pw.1 :: st.win.srcPyr.take n, some pw.2 :: st.win.wgtPyr.take n⟩,
    st.frameNo + 1, st.written ++ [(tlfName g.dstPath st.frameNo, H.collapsePyr a.1)]⟩,
    ?_, ⟨pws ++ [pw], ?_, hQ2, hs2, hw2, ?_, ?_⟩⟩
  · unfold timeLapseFrame
    rw [hins]
    simp only [Except.bind, e, hb, hnorm]
  · simp [hf, hfp]
  · simp [hfn]
  · simp only [List.map_append, hwr, List.length_append, List.length_singleton,
      List.range_succ, List.map_cons, List.map_nil, hfn]

/-- C2: in a run of `TimeLapseFuse` with `maxFrames >= 1` that starts from the empty
window, after the lines `pre` were processed and the frame of `line` (the `k`-th,
`k = pre.length + 1`) was inserted, the new pair is at slot 0 in front of the old
window without its last slot; slot `i < min(k, maxFrames)` of `srcPyr` and of
`wgtPyr` holds the pyramids of frame `k-1-i`, and every later slot is empty. That
state is reached whenever all `k` frames are read and decomposed into pyramids
of one common depth. -/
theorem window_invariant (H : ImageProc) (g : Globals) (weights : List ℚ)
    (pre : List (List Char)) (line : List Char)
    (hn : 1 ≤ g.maxFrames)
    (hsrc : g.srcPyr = List.replicate g.maxFrames.toNat none)
    (hwgt : g.wgtPyr = List.replicate g.maxFrames.toNat none) :
    (∀ (st : TLState) (w : Window) (t : pyramid),
      whileLines (timeLapseFrame H g weights) ⟨⟨g.srcPyr, g.wgtPyr⟩, 0, []⟩ pre = (st, none) →
      insertFrame H g st.win line = .ok (w, t) →
      (∃ tp pw, framePyramids H g (trimEOL line) = .ok (tp, pw) ∧
        w.srcPyr = some tp :: st.win.srcPyr.dropLast ∧
        w.wgtPyr = some pw :: st.win.wgtPyr.dropLast) ∧
      ∀ i : Nat, (i : Int) < g.maxFrames →
        (i < pre.length + 1 →
          ∃ l tp pw, (pre ++ [line])[pre.length - i]? = some l ∧
            framePyramids H g (trimEOL l) = .ok (tp, pw) ∧
            w.srcPyr[i]? = some (some tp) ∧ w.wgtPyr[i]? = some (some pw)) ∧
        (pre.length + 1 ≤ i → w.srcPyr[i]? = some none ∧ w.wgtPyr[i]? = some none)) ∧
    (∀ L : Nat, weights.length = g.maxFrames.toNat →
      (∀ l ∈ pre ++ [line], ∃ pw, framePyramids H g (trimEOL l) = .ok pw ∧
        pw.1.levels = L ∧ pw.2.levels = L) →
      ∃ (st : TLState) (w : Window) (t : pyramid),
        whileLines (timeLapseFrame H g weights) ⟨⟨g.srcPyr, g.wgtPyr⟩, 0, []⟩ pre
          = (st, none) ∧
        insertFrame H g st.win line = .ok (w, t)) := by
  obtain ⟨n, hn1⟩ : ∃ n : Nat, g.maxFrames = (n : Int) + 1 :=
    ⟨(g.maxFrames - 1).toNat, by omega⟩
  constructor
  · intro st w t hrun hins
    have h0 := runInv_init H g n (fun _ => True) hn1 hsrc hwgt
    have hP := whileLines_inv (timeLapseFrame H g weights) (RunInv H g n (fun _ => True))
      (fun done st l st1 => timeLapseFrame_inv H g weights n hn1 done st l st1) pre [] _ st
      h0 hrun
    rw [List.nil_append] at hP
    obtain ⟨pws, pw, hf, -, hfp, -, hs, hw, hs1, hw1⟩ :=
      insertFrame_inv H g n _ hn1 pre st line w t hP hins
    have hlen : pws.length = pre.length := by
      have := congrArg List.length hf
      simpa using this.symm
    obtain ⟨_, _, _, hs0, hw0, _, _⟩ := hP
    have hl1 : st.win.srcPyr.length = n + 1 := by rw [hs0, windowOf_length]
    have hl2 : st.win.wgtPyr.length = n + 1 := by rw [hw0, windowOf_length]
    refine ⟨⟨pw.1, pw.2, hfp, ?_, ?_⟩, ?_⟩
    · rw [hs1, List.dropLast_eq_take, hl1]; rfl
    · rw [hw1, List.dropLast_eq_take, hl2]; rfl
    intro i hi
    have hiN : i < n + 1 := by omega
    have hfull : (pre ++ [line]).map (fun l => framePyramids H g (trimEOL l))
        = (pws ++ [pw]).map Except.ok := by
      simp [hf, hfp]
    constructor
    · intro hik
      have hm : pre.length - i < (pre ++ [line]).length := by simp; omega
      have hm2 : pre.length - i < (pws ++ [pw]).length := by simp; omega
      refine ⟨(pre ++ [line])[pre.length - i], (pws ++ [pw])[pre.length - i].1,
        (pws ++ [pw])[pre.length - i].2, List.getElem?_eq_getElem hm, ?_, ?_, ?_⟩
      · have := congrArg (fun x => x[pre.length - i]?) hfull
        simp only [List.getElem?_map, List.getElem?_eq_getElem hm,
          List.getElem?_eq_getElem hm2, Option.map_some', Option.some.injEq] at this
        exact this
      · rw [hs, windowOf_getElem? _ _ _ hiN, if_pos (by simp; omega)]
        simp only [List.length_map, List.length_append, List.length_singleton, hlen,
          List.getElem?_map, Nat.add_sub_cancel]
        rw [List.getElem?_eq_getElem hm2]
        rfl
      · rw [hw, windowOf_getElem? _ _ _ hiN, if_pos (by simp; omega)]
        simp only [List.length_map, List.length_append, List.length_singleton, hlen,
          List.getElem?_map, Nat.add_sub_cancel]
        rw [List.getElem?_eq_getElem hm2]
        rfl
    · intro hik
      constructor
      · rw [hs, windowOf_getElem? _ _ _ hiN, if_neg (by simp; omega)]
      · rw [hw, windowOf_getElem? _ _ _ hiN, if_neg (by simp; omega)]
  · intro L hwl hgood
    have e : g.maxFrames.toNat = n + 1 := by omega
    have h0 := runInv_init H g n (sameDepth L) hn1 hsrc hwgt
    obtain ⟨st1, hP, hrun⟩ := whileLines_good (timeLapseFrame H g weights)
      (RunInv H g n (sameDepth L)) pre
      (fun done st l hl hP => timeLapseFrame_good H g weights n L hn1 (by omega) done st l hP
        (hgood l (List.mem_append_left _ hl)))
      pre (fun _ h => h) [] _ h0
    obtain ⟨pws, -, -, hs, hw, -, -⟩ := hP
    obtain ⟨pw, hfp, -⟩ := hgood line (by simp)
    have hins := insertFrame_eq H g st1.win line n hn1 (by rw [hs, windowOf_length])
      (by rw [hw, windowOf_length])
    rw [hfp] at hins
    have hr := hrun []
    rw [List.append_nil] at hr
    exact ⟨st1, _, _, by rw [hr]; rfl, hins⟩

theorem timeLapse_run (H : ImageProc) (g : Globals) (good rest : List (List Char)) (L : Nat)
    (hn : 1 ≤ g.maxFrames)
    (hsrc : g.srcPyr = List.replicate g.maxFrames.toNat none)
    (hwgt : g.wgtPyr = List.replicate g.maxFrames.toNat none)
    (hwts : g.weights.length = g.maxFrames.toNat)
    (hgood : ∀ l ∈ good, ∃ pw, framePyramids H g (trimEOL l) = .ok pw ∧
      pw.1.levels = L ∧ pw.2.levels = L)
    (hrest : rest = [] ∨ ∃ l ls, rest = l :: ls ∧ H.readPPM (trimEOL l) = none) :
    (TimeLapseFuse H g (good ++ rest)).written.map Prod.fst
      = (List.range good.length).map (tlfName g.dstPath) ∧
    (TimeLapseFuse H g (good ++ rest)).exit = if rest = [] then none else some .readError := by
  obtain ⟨n, hn1⟩ : ∃ n : Nat, g.maxFrames = (n : Int) + 1 :=
    ⟨(g.maxFrames - 1).toNat, by omega⟩
  have e : g.maxFrames.toNat = n + 1 := by omega
  have hcw := computeWeights_eq H g.sigma g.maxFrames.toNat g.weights (by omega)
  rw [List.drop_eq_nil_of_le (by omega), List.append_nil] at hcw
  have h0 := runInv_init H g n (sameDepth L) hn1 hsrc hwgt
  obtain ⟨st1, hP, hrun⟩ := whileLines_good
    (timeLapseFrame H g ((List.range g.maxFrames.toNat).map
      fun i : Nat => H.exp (weightArg g.sigma (i : Int))))
    (RunInv H g n (sameDepth L)) good
    (fun done st l hl hP => timeLapseFrame_good H g _ n L hn1 (by simp [e]) done st l hP
      (hgood l hl))
    good (fun _ h => h) [] _ h0
  rw [List.nil_append] at hP
  obtain ⟨pws, hf, hQ, hs, hw, hfn, hwr⟩ := hP
  unfold TimeLapseFuse
  rw [hcw]
  simp only []
  rw [hrun rest]
  rcases hrest with h | ⟨l, ls, h, hread⟩
  · subst h
    have hc := cleanUp_ok st1.win g.maxFrames.toNat (by rw [hs, windowOf_length, e])
      (by rw [hw, windowOf_length, e])
    simp only [whileLines, hc]
    exact ⟨hwr, by simp⟩
  · subst h
    have hins := insertFrame_eq H g st1.win l n hn1 (by rw [hs, windowOf_length])
      (by rw [hw, windowOf_length])
    have hfp : framePyramids H g (trimEOL l) = .error .readError := by
      simp [framePyramids, hread]
    rw [hfp] at hins
    have hb : timeLapseFrame H g ((List.range g.maxFrames.toNat).map
        fun i : Nat => H.exp (weightArg g.sigma (i : Int))) st1 l = .error .readError := by
      unfold timeLapseFrame
      rw [hins]
      rfl
    simp only [whileLines, hb]
    exact ⟨hwr, by simp⟩

/-! ## The names of the frames written -/

theorem digitChar_spec (k : Nat) (hk : k < 10) :
    (Nat.digitChar k).isDigit = true ∧ (Nat.digitChar k).toNat - 48 = k ∧
      (Nat.digitChar k = '0' → k = 0) := by
  interval_cases k <;> decide

theorem digitsValue_snoc (xs : List Char) (d : Char) :
    digitsValue (xs ++ [d]) = 10 * digitsValue xs + (d.toNat - 48) := by
  simp [digitsValue, List.foldl_append]

theorem digitsValue_zeros (k : Nat) (xs : List Char) :
    digitsValue (List.replicate k '0' ++ xs) = digitsValue xs := by
  have h : ∀ k : Nat, List.foldl (fun a c => 10 * a + (c.toNat - 48)) 0 (List.replicate k '0') = 0 := by
    intro k
    induction k with
    | zero => rfl
    | succ k ih =>
      rw [List.replicate_succ', List.foldl_append, ih]
      rfl
  simp only [digitsValue, List.foldl_append, h]

theorem toDigitsCore_spec (fuel : Nat) :
    ∀ (n : Nat) (ds : List Char), n < fuel →
      ∃ xs : List Char, Nat.toDigitsCore 10 fuel n ds = xs ++ ds ∧ xs ≠ [] ∧
        xs.all Char.isDigit = true ∧ digitsValue xs = n ∧
        (0 < n → xs.head? ≠ some '0') ∧ n < 10 ^ xs.length := by
  induction fuel with
  | zero => intro n ds h; omega
  | succ fuel ih =>
    intro n ds hn
    obtain ⟨d1, d2, d3⟩ := digitChar_spec (n % 10) (Nat.mod_lt _ (by decide))
    rw [Nat.toDigitsCore]
    by_cases h0 : n / 10 = 0
    · have hlt : n < 10 := by
        by_contra hh
        have : 1 ≤ n / 10 := (Nat.le_div_iff_mul_le (by decide)).mpr (by omega)
        omega
      have hmod : n % 10 = n := Nat.mod_eq_of_lt hlt
      simp only [h0, if_true]
      refine ⟨[Nat.digitChar (n % 10)], rfl, by simp, by simp [d1], ?_, ?_, by simpa using hlt⟩
      · rw [hmod] at d2 ⊢
        simp [digitsValue, d2]
      · intro hpos hh
        simp only [List.head?_cons, Option.some.injEq] at hh
        have := d3 hh
        omega
    · simp only [h0, if_false]
      have hdiv : n / 10 < fuel := by
        have : n / 10 < n := Nat.div_lt_self (by omega) (by decide)
        omega
      obtain ⟨xs, e, hne, hall, hval, hhead, hlen⟩ := ih (n / 10) (Nat.digitChar (n % 10) :: ds) hdiv
      refine ⟨xs ++ [Nat.digitChar (n % 10)], by rw [e]; simp, by simp, ?_, ?_, ?_, ?_⟩
      · simp [List.all_append, hall, d1]
      · rw [digitsValue_snoc, hval, d2]
        exact Nat.div_add_mod n 10
      · intro _
        have : (xs ++ [Nat.digitChar (n % 10)]).head? = xs.head? := by
          cases xs with
          | nil => exact absurd rfl hne
          | cons x t => rfl
        rw [this]
        exact hhead (Nat.pos_of_ne_zero h0)
      · rw [List.length_append, List.length_singleton, pow_succ]
        have := (Nat.div_lt_iff_lt_mul (by decide : 0 < 10)).mp hlen
        omega

theorem decimal_spec (n : Nat) :
    decimal n ≠ [] ∧ (decimal n).all Char.isDigit = true ∧ digitsValue (decimal n) = n ∧
      (0 < n → (decimal n).head? ≠ some '0') ∧ n < 10 ^ (decimal n).length ∧
      (n < 10 ^ 9 → (decimal n).length ≤ 9) := by
  have e : decimal n = Nat.toDigitsCore 10 (n + 1) n [] := rfl
  obtain ⟨xs, h1, h2, h3, h4, h5, h6⟩ := toDigitsCore_spec (n + 1) n [] (by omega)
  rw [List.append_nil] at h1
  rw [e, h1]
  refine ⟨h2, h3, h4, h5, h6, fun hlt => ?_⟩
  rw [← h1]
  exact Nat.toDigitsCore_length 10 (by decide) (n + 1) n 9 hlt (by decide)

theorem pad9_spec (m : Nat) :
    (pad9 m).all Char.isDigit = true ∧ digitsValue (pad9 m) = m ∧ 9 ≤ (pad9 m).length ∧
      (m < 10 ^ 9 → (pad9 m).length = 9) ∧ (10 ^ 9 ≤ m → (pad9 m).head? ≠ some '0') := by
  obtain ⟨h1, h2, h3, h4, h5, h6⟩ := decimal_spec m
  have hlen : (pad9 m).length = (9 - (decimal m).length) + (decimal m).length := by
    simp [pad9]
  refine ⟨?_, ?_, by omega, ?_, ?_⟩
  · simp only [pad9, List.all_append, h2, Bool.and_true]
    simp
  · rw [pad9, digitsValue_zeros, h3]
  · intro hlt
    have := h6 hlt
    omega
  · intro hge
    have hl : 9 < (decimal m).length := by
      by_contra hh
      have : 10 ^ (decimal m).length ≤ 10 ^ 9 := Nat.pow_le_pow_right (by decide) (by omega)
      omega
    have e : pad9 m = decimal m := by
      simp only [pad9]
      rw [show 9 - (decimal m).length = 0 by omega]
      rfl
    rw [e]
    exact h4 (by have : 0 < 10 ^ 9 := by positivity
                 omega)

/-- C6: with `maxFrames >= 1` and the window arrays as `main` allocates them, when
the first `k` listed frames are read and decomposed into pyramids of one common
depth and the list ends there or its next frame cannot be read, `TimeLapseFuse`
calls `writePPM` exactly `k` times; the name of the `m`-th call (`m = 0, 1, ..`)
is `dstPath`, then `TLF_`, then a string of decimal digits denoting `m` that is
9 long for `m < 10^9` (without leading zero above), then `.ppm`. It returns
normally in the first case and on the read error, with nothing more written, in
the second. -/
theorem timeLapse_outputs (H : ImageProc) (g : Globals) (good rest : List (List Char)) (L : Nat)
    (hn : 1 ≤ g.maxFrames)
    (hsrc : g.srcPyr = List.replicate g.maxFrames.toNat none)
    (hwgt : g.wgtPyr = List.replicate g.maxFrames.toNat none)
    (hwts : g.weights.length = g.maxFrames.toNat)
    (hgood : ∀ l ∈ good, ∃ pw, framePyramids H g (trimEOL l) = .ok pw ∧
      pw.1.levels = L ∧ pw.2.levels = L)
    (hrest : rest = [] ∨ ∃ l ls, rest = l :: ls ∧ H.readPPM (trimEOL l) = none) :
    (TimeLapseFuse H g (good ++ rest)).written.length = good.length ∧
    (∀ m, m < good.length → ∃ digits : List Char,
      ((TimeLapseFuse H g (good ++ rest)).written.map Prod.fst)[m]?
        = some (g.dstPath ++ "TLF_".toList ++ digits ++ ".ppm".toList) ∧
      digits.all Char.isDigit = true ∧ digitsValue digits = m ∧ 9 ≤ digits.length ∧
      (m < 10 ^ 9 → digits.length = 9) ∧ (10 ^ 9 ≤ m → digits.head? ≠ some '0')) ∧
    (TimeLapseFuse H g (good ++ rest)).exit = if rest = [] then none else some .readError := by
  obtain ⟨hnames, hexit⟩ := timeLapse_run H g good rest L hn hsrc hwgt hwts hgood hrest
  refine ⟨?_, ?_, hexit⟩
  · have := congrArg List.length hnames
    simpa using this
  · intro m hm
    obtain ⟨p1, p2, p3, p4, p5⟩ := pad9_spec m
    refine ⟨pad9 m, ?_, p1, p2, p3, p4, p5⟩
    rw [hnames, List.getElem?_map, List.getElem?_range hm]
    rfl

/-! ## ExposureFuse over the whole list -/

theorem foldLevels_snoc {α : Type} (op : α → image → image → image) (L : Nat)
    (acc : List image) (srcs : List (α × List image)) (x : α × List image) :
    foldLevels op L acc (srcs ++ [x]) = zipLevels (op x.1) L (foldLevels op L acc srcs) x.2 := by
  simp [foldLevels, List.foldl_append]

theorem accumulated_levels (L : Nat) (pw0 : pyramid × pyramid) (pws : List (pyramid × pyramid))
    (h0 : sameDepth L pw0) (h : ∀ pw ∈ pws, sameDepth L pw) :
    (accumulated L pw0 pws).1.levels = L ∧ (accumulated L pw0 pws).2.levels = L := by
  unfold accumulated pyramid.levels
  simp only []
  rw [foldLevels_length, foldLevels_length]
  · simp only [allocAccumulators, List.length_map]
    exact ⟨h0.1, h0.1⟩
  · intro ks hks
    rw [List.mem_map] at hks
    obtain ⟨x, hx, e⟩ := hks
    rw [← e]
    exact le_of_eq (h x hx).2.symm
  · intro ks hks
    rw [List.mem_map] at hks
    obtain ⟨x, hx, e⟩ := hks
    rw [← e]
    exact le_of_eq (h x hx).1.symm

theorem accumulated_snoc (L : Nat) (pw0 pw : pyramid × pyramid) (pws : List (pyramid × pyramid))
    (h0 : sameDepth L pw0) (h : ∀ x ∈ pws, sameDepth L x) (hq : sameDepth L pw) :
    accumulate pw.1 pw.2 pw.1.levels (accumulated L pw0 pws)
      = .ok (accumulated L pw0 (pws ++ [pw])) := by
  obtain ⟨l1, l2⟩ := accumulated_levels L pw0 pws h0 h
  rw [accumulate_eq _ _ _ _ (le_refl _) (by rw [hq.1, hq.2]) (by rw [l1, hq.1])
    (by rw [l2, hq.1])]
  simp only [accumulated, List.map_append, List.map_cons, List.map_nil, foldLevels_snoc, hq.1]

theorem exposureFrame_good (H : ImageProc) (g : Globals) (L : Nat)
    (done : List (List Char)) (acc : Option (pyramid × pyramid)) (l : List Char)
    (hP : ExpInv H g L done acc)
    (hl : ∃ pw, framePyramids H g (trimEOL l) = .ok pw ∧ sameDepth L pw) :
    ∃ acc1, exposureFrame H g acc l = .ok acc1 ∧ ExpInv H g L (done ++ [l]) acc1 := by
  obtain ⟨pw, hfp, hq⟩ := hl
  obtain ⟨pws, hf, hQ, hacc⟩ := hP
  have hQ2 : ∀ x ∈ pws ++ [pw], sameDepth L x := by
    intro x hx
    rcases List.mem_append.mp hx with h | h
    · exact hQ x h
    · rw [List.mem_singleton] at h; rw [h]; exact hq
  refine ⟨accumulatedState L (pws ++ [pw]), ?_, ⟨pws ++ [pw], by simp [hf, hfp], hQ2, rfl⟩⟩
  unfold exposureFrame
  rw [hfp]
  simp only [Except.bind]
  cases pws with
  | nil =>
    subst hacc
    have := accumulated_snoc L pw pw [] hq (by simp) hq
    simp only [accumulatedState, List.nil_append]
    have e : accumulated L pw [] = allocAccumulators pw.1 := rfl
    rw [e] at this
    rw [this]
    rfl
  | cons pw0 rest =>
    subst hacc
    simp only [accumulatedState, List.cons_append]
    rw [accumulated_snoc L pw0 pw (pw0 :: rest) (hQ pw0 (List.mem_cons_self _ _)) hQ hq]
    rfl

theorem exposure_run (H : ImageProc) (g : Globals) (L : Nat) (lines : List (List Char))
    (hgood : ∀ l ∈ lines, ∃ pw, framePyramids H g (trimEOL l) = .ok pw ∧ sameDepth L pw) :
    ∃ pws : List (pyramid × pyramid),
      lines.map (fun l => framePyramids H g (trimEOL l)) = pws.map Except.ok ∧
      (∀ pw ∈ pws, sameDepth L pw) ∧
      whileLines (exposureFrame H g) none lines = (accumulatedState L pws, none) := by
  obtain ⟨acc, hP, hrun⟩ := whileLines_good (exposureFrame H g) (ExpInv H g L) lines
    (fun done st l hl hP => exposureFrame_good H g L done st l hP (hgood l hl))
    lines (fun _ h => h) [] none ⟨[], rfl, by simp, rfl⟩
  rw [List.nil_append] at hP
  obtain ⟨pws, hf, hQ, hacc⟩ := hP
  have := hrun []
  rw [List.append_nil] at this
  exact ⟨pws, hf, hQ, by rw [this, hacc]; rfl⟩

/-- C5 (amended): for every non-empty input list whose frames are all read and
decomposed into pyramids of one common depth, `ExposureFuse` returns normally
after exactly one call of `writePPM`, on `<dstPath>ExpFusionOutput.ppm`. -/
theorem exposureFuse_one_output (H : ImageProc) (g : Globals) (L : Nat)
    (lines : List (List Char)) (hne : lines ≠ [])
    (hgood : ∀ l ∈ lines, ∃ pw, framePyramids H g (trimEOL l) = .ok pw ∧
      pw.1.levels = L ∧ pw.2.levels = L) :
    (ExposureFuse H g lines).written.map Prod.fst
      = [g.dstPath ++ "ExpFusionOutput.ppm".toList] ∧
    (ExposureFuse H g lines).exit = none := by
  obtain ⟨pws, hf, hQ, hrun⟩ := exposure_run H g L lines hgood
  have hlen : pws.length = lines.length := by
    have := congrArg List.length hf
    simpa using this.symm
  cases pws with
  | nil =>
    exfalso
    apply hne
    apply List.eq_nil_of_length_eq_zero
    rw [← hlen]; rfl
  | cons pw0 rest =>
    obtain ⟨l1, l2⟩ := accumulated_levels L pw0 (pw0 :: rest) (hQ pw0 (List.mem_cons_self _ _)) hQ
    unfold ExposureFuse
    rw [hrun]
    simp only [accumulatedState]
    rw [normalize_eq false _ _ (le_refl _) (by rw [l1, l2])]
    exact ⟨rfl, rfl⟩

/-- C5 fails on the empty input list: the accumulators are still NULL when the
normalisation reads `fPyr->levels`, and nothing is written. -/
theorem exposureFuse_empty_list :
    (ExposureFuse sampleProc (mainGlobals (sampleArgv (-1))) []).written.length = 0 ∧
    (ExposureFuse sampleProc (mainGlobals (sampleArgv (-1))) []).exit = some .segfault := by
  decide

/-! ## Samples of the accumulated levels -/

theorem pointwise_add_same (a b : image) (h : shape a = shape b) :
    shape (pointwise_add a b) = shape a ∧
    ∀ c p, (pointwise_add a b).layers c p = a.layers c p + b.layers c p := by
  have hg : sameGeometry a b := by
    simp only [shape, Prod.mk.injEq] at h
    exact h
  unfold pointwise_add
  rw [if_pos hg]
  exact ⟨rfl, fun _ _ => rfl⟩

theorem scaleAdd_same (k : ℚ) (a b : image) (h : shape a = shape b) :
    shape (scaleAdd k a b) = shape a ∧
    ∀ c p, (scaleAdd k a b).layers c p = a.layers c p + b.layers c p * k := by
  unfold scaleAdd
  have := pointwise_add_same a (image_scale (copyImage b) k) h
  exact ⟨this.1, fun c p => this.2 c p⟩

theorem foldLevels_pixel {α : Type} (op : α → image → image → image)
    (val : α → image → Nat → Nat → ℚ) (L j : Nat) (hj : j < L)
    (hop : ∀ k x y, shape x = shape y →
      shape (op k x y) = shape x ∧ ∀ c p, (op k x y).layers c p = x.layers c p + val k y c p)
    (srcs : List (α × List image)) :
    ∀ (acc : List image) (a : image), acc[j]? = some a →
      (∀ ks ∈ srcs, L ≤ ks.2.length ∧ ∃ y, ks.2[j]? = some y ∧ shape y = shape a) →
      ∃ r, (foldLevels op L acc srcs)[j]? = some r ∧ shape r = shape a ∧
        ∀ c p, r.layers c p
          = a.layers c p + (srcs.map fun ks => val ks.1 (ks.2.getD j (newImage 0 0 0)) c p).sum := by
  induction srcs with
  | nil =>
    intro acc a ha _
    exact ⟨a, ha, rfl, fun c p => by simp⟩
  | cons ks rest ih =>
    intro acc a ha h
    obtain ⟨hL, y, hy, hsh⟩ := h ks (List.mem_cons_self _ _)
    obtain ⟨s1, s2⟩ := hop ks.1 a y hsh.symm
    have h1 : (zipLevels (op ks.1) L acc ks.2)[j]? = some (op ks.1 a y) := by
      rw [zipLevels_getElem? _ _ _ _ hL, if_pos hj, ha, hy]
      rfl
    obtain ⟨r, hr, hrs, hrp⟩ := ih (zipLevels (op ks.1) L acc ks.2) (op ks.1 a y) h1
      (fun x hx => by
        obtain ⟨hxL, z, hz, hzs⟩ := h x (List.mem_cons_of_mem _ hx)
        exact ⟨hxL, z, hz, by rw [hzs, s1]⟩)
    refine ⟨r, hr, by rw [hrs, s1], fun c p => ?_⟩
    rw [hrp c p, s2 c p]
    have : ks.2.getD j (newImage 0 0 0) = y := by
      rw [List.getD_eq_getElem?_getD, hy]; rfl
    simp only [List.map_cons, List.sum_cons, this]
    ring

theorem geometry_getElem? (imgs : List image) (geo : List (Nat × Nat)) (nl j : Nat)
    (h : imgs.map shape = geo.map (fun d => (d.1, d.2, nl))) (hj : j < geo.length) :
    imgs.length = geo.length ∧
    ∃ y, imgs[j]? = some y ∧ shape y = ((geo.getD j (0, 0)).1, (geo.getD j (0, 0)).2, nl) := by
  have hl : imgs.length = geo.length := by
    have := congrArg List.length h
    simpa using this
  have hj2 : j < imgs.length := by omega
  refine ⟨hl, imgs[j], List.getElem?_eq_getElem hj2, ?_⟩
  have := congrArg (fun l => l[j]?) h
  simp only [List.getElem?_map, List.getElem?_eq_getElem hj2, List.getElem?_eq_getElem hj,
    Option.map_some', Option.some.injEq] at this
  rw [this, List.getD_eq_getElem?_getD, List.getElem?_eq_getElem hj]
  rfl

theorem broadcast3_layers (sx sy : Nat) (w : image) (c p : Nat) (hc : c < 3) (hp : p < sx * sy) :
    (broadcast3 sx sy w).layers c p = w.layers 0 p ∧
    shape (broadcast3 sx sy w) = (sx, sy, 3) := by
  refine ⟨?_, rfl⟩
  simp only [broadcast3, memcpyLayer, newImage, hp, and_true]
  interval_cases c <;> simp

theorem divideBy_pixel (byW : Bool) (f w : image) (sx sy : Nat)
    (hf : shape f = (sx, sy, 3)) (hw : shape w = (sx, sy, 1)) (c p : Nat)
    (hc : c < 3) (hp : p < sx * sy) :
    (divideBy byW f w).layers c p
      = if w.layers 0 p = 0 then 0 else f.layers c p / w.layers 0 p := by
  simp only [shape, Prod.mk.injEq] at hf hw
  obtain ⟨f1, f2, f3⟩ := hf
  obtain ⟨w1, w2, w3⟩ := hw
  have e : (if byW then broadcast3 w.sx w.sy w else broadcast3 f.sx f.sy w)
      = broadcast3 sx sy w := by
    cases byW <;> simp [f1, f2, w1, w2]
  unfold divideBy
  rw [e]
  have hg : sameGeometry f (broadcast3 sx sy w) := ⟨f1, f2, f3⟩
  unfold pointwise_div
  rw [if_pos hg]
  simp only [(broadcast3_layers sx sy w c p hc hp).1]

theorem hasGeometry_sameDepth (geo : List (Nat × Nat)) (pw : pyramid × pyramid)
    (h : hasGeometry geo pw) : sameDepth geo.length pw := by
  constructor
  · have := congrArg List.length h.1
    simpa [pyramid.levels] using this
  · have := congrArg List.length h.2
    simpa [pyramid.levels] using this

theorem decoded_mem {α β : Type} (f : α → Except Stop β) (lines : List α) (pws : List β)
    (hf : lines.map f = pws.map Except.ok) (x : β) (hx : x ∈ pws) :
    ∃ l ∈ lines, f l = .ok x := by
  have : Except.ok x ∈ lines.map f := by
    rw [hf]; exact List.mem_map_of_mem _ hx
  rw [List.mem_map] at this
  exact this

theorem level_eq (p : pyramid) (j : Nat) (r : image) (h : p.images[j]? = some r) :
    p.level j = r := by
  unfold pyramid.level
  rw [List.getD_eq_getElem?_getD, h]
  rfl

theorem alloc_getElem? (t : pyramid) (geo : List (Nat × Nat))
    (h : t.images.map shape = geo.map (fun d => (d.1, d.2, 3))) (j : Nat) (hj : j < geo.length) :
    ∃ a b, (allocAccumulators t).1.images[j]? = some a ∧
      (allocAccumulators t).2.images[j]? = some b ∧
      shape a = ((geo.getD j (0, 0)).1, (geo.getD j (0, 0)).2, 3) ∧
      shape b = ((geo.getD j (0, 0)).1, (geo.getD j (0, 0)).2, 1) ∧
      (∀ c p, a.layers c p = 0) ∧ (∀ c p, b.layers c p = 0) := by
  obtain ⟨-, y, hy, hs⟩ := geometry_getElem? t.images geo 3 j h hj
  simp only [shape, Prod.mk.injEq] at hs
  refine ⟨newImage y.sx y.sy 3, newImage y.sx y.sy 1, ?_, ?_, ?_, ?_, fun _ _ => rfl,
    fun _ _ => rfl⟩
  · simp [allocAccumulators, hy]
  · simp [allocAccumulators, hy]
  · simp [shape, newImage, hs.1, hs.2.1]
  · simp [shape, newImage, hs.1, hs.2.1]

/-- C4: for a non-empty list of frames that are all read and decomposed into
pyramids of the level sizes `geo`, the loop of `ExposureFuse` ends with
accumulators whose level `j` is, sample by sample, the sum over all frames of
level `j` of the frame's weighted Laplacian pyramid (in `fPyr`) and of its
Gaussian weight pyramid (in `wPyr`); the pyramid handed to `collapsePyr` has
level `j` equal to that level of `fPyr` divided by the level of `wPyr` in each of
the three layers (0 where the weight is 0), and its collapse is the one image
written. -/
theorem static_accumulation (H : ImageProc) (g : Globals) (lines : List (List Char))
    (geo : List (Nat × Nat)) (hne : lines ≠ [])
    (hgood : ∀ l ∈ lines, ∃ pw, framePyramids H g (trimEOL l) = .ok pw ∧ hasGeometry geo pw) :
    ∃ (pws : List (pyramid × pyramid)) (fPyr wPyr out : pyramid),
      lines.map (fun l => framePyramids H g (trimEOL l)) = pws.map Except.ok ∧
      whileLines (exposureFrame H g) none lines = (some (fPyr, wPyr), none) ∧
      normalize false fPyr.levels (fPyr, wPyr) = .ok (out, wPyr) ∧
      ExposureFuse H g lines = ⟨[(expFusionName g.dstPath, H.collapsePyr out)], none⟩ ∧
      fPyr.levels = geo.length ∧ wPyr.levels = geo.length ∧ out.levels = geo.length ∧
      ∀ j, j < geo.length → ∀ p, p < (geo.getD j (0, 0)).1 * (geo.getD j (0, 0)).2 →
        (wPyr.level j).layers 0 p = (pws.map fun pw => (pw.2.level j).layers 0 p).sum ∧
        ∀ c, c < 3 →
          (fPyr.level j).layers c p = (pws.map fun pw => (pw.1.level j).layers c p).sum ∧
          (out.level j).layers c p
            = if (wPyr.level j).layers 0 p = 0 then 0
              else (fPyr.level j).layers c p / (wPyr.level j).layers 0 p := by
  have hgood2 : ∀ l ∈ lines, ∃ pw, framePyramids H g (trimEOL l) = .ok pw ∧
      sameDepth geo.length pw := by
    intro l hl
    obtain ⟨pw, h1, h2⟩ := hgood l hl
    exact ⟨pw, h1, hasGeometry_sameDepth geo pw h2⟩
  obtain ⟨pws, hf, hQ, hrun⟩ := exposure_run H g geo.length lines hgood2
  have hG : ∀ x ∈ pws, hasGeometry geo x := by
    intro x hx
    obtain ⟨l, hl, e⟩ := decoded_mem _ lines pws hf x hx
    obtain ⟨pw, h1, h2⟩ := hgood l hl
    rw [e] at h1
    cases h1
    exact h2
  have hlen : pws.length = lines.length := by
    have := congrArg List.length hf
    simpa using this.symm
  cases pws with
  | nil =>
    exfalso
    apply hne
    apply List.eq_nil_of_length_eq_zero
    rw [← hlen]; rfl
  | cons pw0 rest =>
    obtain ⟨l1, l2⟩ := accumulated_levels geo.length pw0 (pw0 :: rest)
      (hQ pw0 (List.mem_cons_self _ _)) hQ
    have hnorm := normalize_eq false (accumulated geo.length pw0 (pw0 :: rest)).1.levels
      (accumulated geo.length pw0 (pw0 :: rest)) (le_refl _) (by rw [l1, l2])
    have hout : (zipLevels (divideBy false) (accumulated geo.length pw0 (pw0 :: rest)).1.levels
        (accumulated geo.length pw0 (pw0 :: rest)).1.images
        (accumulated geo.length pw0 (pw0 :: rest)).2.images).length = geo.length := by
      rw [zipLevels_length _ _ _ _ (by rw [l1]; exact le_of_eq l2.symm)]
      exact l1
    refine ⟨pw0 :: rest, (accumulated geo.length pw0 (pw0 :: rest)).1,
      (accumulated geo.length pw0 (pw0 :: rest)).2,
      ⟨zipLevels (divideBy false) (accumulated geo.length pw0 (pw0 :: rest)).1.levels
        (accumulated geo.length pw0 (pw0 :: rest)).1.images
        (accumulated geo.length pw0 (pw0 :: rest)).2.images⟩,
      hf, hrun, hnorm, ?_, l1, l2, hout, ?_⟩
    · unfold ExposureFuse
      rw [hrun]
      simp only [accumulatedState]
      rw [hnorm]
    · intro j hj p hp
      obtain ⟨a, b, ha, hb, sa, sb, za, zb⟩ :=
        alloc_getElem? pw0.1 geo (hG pw0 (List.mem_cons_self _ _)).1 j hj
      obtain ⟨rf, hrf, srf, prf⟩ := foldLevels_pixel (fun (_ : Unit) => pointwise_add)
        (fun _ y c p => y.layers c p) geo.length j hj
        (fun _ x y h => pointwise_add_same x y h)
        ((pw0 :: rest).map fun x => ((), x.1.images))
        (allocAccumulators pw0.1).1.images a ha
        (by
          intro ks hks
          rw [List.mem_map] at hks
          obtain ⟨x, hx, e⟩ := hks
          obtain ⟨hl, y, hy, hs⟩ := geometry_getElem? x.1.images geo 3 j (hG x hx).1 hj
          rw [← e]
          exact ⟨le_of_eq hl.symm, y, hy, by rw [hs, sa]⟩)
      obtain ⟨rw_, hrw, srw, prw⟩ := foldLevels_pixel (fun (_ : Unit) => pointwise_add)
        (fun _ y c p => y.layers c p) geo.length j hj
        (fun _ x y h => pointwise_add_same x y h)
        ((pw0 :: rest).map fun x => ((), x.2.images))
        (allocAccumulators pw0.1).2.images b hb
        (by
          intro ks hks
          rw [List.mem_map] at hks
          obtain ⟨x, hx, e⟩ := hks
          obtain ⟨hl, y, hy, hs⟩ := geometry_getElem? x.2.images geo 1 j (hG x hx).2 hj
          rw [← e]
          exact ⟨le_of_eq hl.symm, y, hy, by rw [hs, sb]⟩)
      have ef : (accumulated geo.length pw0 (pw0 :: rest)).1.level j = rf := level_eq _ _ _ hrf
      have ew : (accumulated geo.length pw0 (pw0 :: rest)).2.level j = rw_ := level_eq _ _ _ hrw
      have eo : pyramid.level ⟨zipLevels (divideBy false)
          (accumulated geo.length pw0 (pw0 :: rest)).1.levels
          (accumulated geo.length pw0 (pw0 :: rest)).1.images
          (accumulated geo.length pw0 (pw0 :: rest)).2.images⟩ j = divideBy false rf rw_ := by
        apply level_eq
        have hrf2 : (accumulated geo.length pw0 (pw0 :: rest)).1.images[j]? = some rf := hrf
        have hrw2 : (accumulated geo.length pw0 (pw0 :: rest)).2.images[j]? = some rw_ := hrw
        rw [zipLevels_getElem? _ _ _ _ (by rw [l1]; exact le_of_eq l2.symm), if_pos (by rw [l1]; exact hj),
          hrf2, hrw2]
        rfl
      rw [ef, ew, eo]
      constructor
      · rw [prw 0 p, zb, zero_add, List.map_map]
        rfl
      · intro c hc
        constructor
        · rw [prf c p, za, zero_add, List.map_map]
          rfl
        · exact divideBy_pixel false rf rw_ _ _ (by rw [srf, sa]) (by rw [srw, sb]) c p hc hp

/-! ## The blend of TimeLapseFuse -/

theorem sum_empty_slots (j c p : Nat) (r : Nat) (weights : List ℚ) :
    (List.zipWith (fun k slot => k * slotSample slot j c p) weights
      (List.replicate r none)).sum = 0 := by
  induction r generalizing weights with
  | zero => simp
  | succ r ih =>
    cases weights with
    | nil => simp
    | cons k ks =>
      rw [List.replicate_succ, List.zipWith_cons_cons, List.sum_cons, ih]
      simp [slotSample]

theorem sum_slots (j c p : Nat) (r : Nat) (ss : List pyramid) (weights : List ℚ) :
    ((weights.zip (ss.map pyramid.images)).map
        fun ks => (ks.2.getD j (newImage 0 0 0)).layers c p * ks.1).sum
      = (List.zipWith (fun k slot => k * slotSample slot j c p) weights
          (ss.map some ++ List.replicate r none)).sum := by
  induction ss generalizing weights with
  | nil =>
    simp only [List.map_nil, List.zip_nil_right, List.nil_append, sum_empty_slots, List.sum_nil]
  | cons s rest ih =>
    cases weights with
    | nil => simp
    | cons k ks =>
      simp only [List.map_cons, List.zip_cons_cons, List.sum_cons, List.cons_append,
        List.zipWith_cons_cons]
      rw [ih ks]
      simp only [slotSample, pyramid.level]
      rw [mul_comm]

/-- C3: in a run of `TimeLapseFuse` with `maxFrames >= 1` over frames whose
pyramids have the level sizes `geo`, once the frame of `line` is in the window
`w` the blend leaves in the fresh accumulators, sample by sample at every level
`j`, `fPyr[j] = sum_i weights[i] * srcPyr[i][j]` and
`wPyr[j] = sum_i weights[i] * wgtPyr[i][j]` over the occupied slots `i` of `w`;
the level that is collapsed is `fPyr[j]` divided by `wPyr[j]` in each of the
three layers (0 where the weight is 0), and the loop body ends with the window
`w` itself. -/
theorem blend_formula (H : ImageProc) (g : Globals) (weights : List ℚ)
    (pre : List (List Char)) (line : List Char) (st : TLState) (w : Window) (t : pyramid)
    (geo : List (Nat × Nat))
    (hn : 1 ≤ g.maxFrames)
    (hsrc : g.srcPyr = List.replicate g.maxFrames.toNat none)
    (hwgt : g.wgtPyr = List.replicate g.maxFrames.toNat none)
    (hwl : weights.length = g.maxFrames.toNat)
    (hgeo : ∀ l ∈ pre ++ [line], ∀ pw, framePyramids H g (trimEOL l) = .ok pw →
      hasGeometry geo pw)
    (hrun : whileLines (timeLapseFrame H g weights) ⟨⟨g.srcPyr, g.wgtPyr⟩, 0, []⟩ pre = (st, none))
    (hins : insertFrame H g st.win line = .ok (w, t)) :
    ∃ fPyr wPyr out : pyramid,
      blend w weights g.maxFrames.toNat 0 (allocAccumulators t) = .ok (fPyr, wPyr) ∧
      normalize true fPyr.levels (fPyr, wPyr) = .ok (out, wPyr) ∧
      timeLapseFrame H g weights st line
        = .ok ⟨w, st.frameNo + 1,
            st.written ++ [(tlfName g.dstPath st.frameNo, H.collapsePyr out)]⟩ ∧
      fPyr.levels = geo.length ∧ wPyr.levels = geo.length ∧ out.levels = geo.length ∧
      ∀ j, j < geo.length → ∀ p, p < (geo.getD j (0, 0)).1 * (geo.getD j (0, 0)).2 →
        (wPyr.level j).layers 0 p
          = (List.zipWith (fun k slot => k * slotSample slot j 0 p) weights w.wgtPyr).sum ∧
        ∀ c, c < 3 →
          (fPyr.level j).layers c p
            = (List.zipWith (fun k slot => k * slotSample slot j c p) weights w.srcPyr).sum ∧
          (out.level j).layers c p
            = if (wPyr.level j).layers 0 p = 0 then 0
              else (fPyr.level j).layers c p / (wPyr.level j).layers 0 p := by
  obtain ⟨n, hn1⟩ : ∃ n : Nat, g.maxFrames = (n : Int) + 1 :=
    ⟨(g.maxFrames - 1).toNat, by omega⟩
  have eN : g.maxFrames.toNat = n + 1 := by omega
  have h0 := runInv_init H g n (fun _ => True) hn1 hsrc hwgt
  have hP := whileLines_inv (timeLapseFrame H g weights) (RunInv H g n (fun _ => True))
    (fun done st l st1 => timeLapseFrame_inv H g weights n hn1 done st l st1) pre [] _ st h0 hrun
  rw [List.nil_append] at hP
  obtain ⟨pws, pw, hf, -, hfp, ht, hs, hw, -, -⟩ :=
    insertFrame_inv H g n _ hn1 pre st line w t hP hins
  subst ht
  have hfull : (pre ++ [line]).map (fun l => framePyramids H g (trimEOL l))
      = (pws ++ [pw]).map Except.ok := by
    simp [hf, hfp]
  have hG : ∀ x ∈ pws ++ [pw], hasGeometry geo x := by
    intro x hx
    obtain ⟨l, hl, e⟩ := decoded_mem _ _ _ hfull x hx
    exact hgeo l hl x e
  have hGt := hG pw (by simp)
  rw [windowOf_split] at hs hw
  have hsl : ∀ s ∈ (((pws ++ [pw]).map Prod.fst).reverse.take (n + 1)),
      s.images.map shape = geo.map (fun d => (d.1, d.2, 3)) := by
    intro s hs
    have := List.mem_of_mem_take hs
    rw [List.mem_reverse, List.mem_map] at this
    obtain ⟨x, hx, e⟩ := this
    rw [← e]; exact (hG x hx).1
  have hwv : ∀ s ∈ (((pws ++ [pw]).map Prod.snd).reverse.take (n + 1)),
      s.images.map shape = geo.map (fun d => (d.1, d.2, 1)) := by
    intro s hs
    have := List.mem_of_mem_take hs
    rw [List.mem_reverse, List.mem_map] at this
    obtain ⟨x, hx, e⟩ := this
    rw [← e]; exact (hG x hx).2
  have dl : ∀ (imgs : List image) (nl : Nat),
      imgs.map shape = geo.map (fun d => (d.1, d.2, nl)) → imgs.length = geo.length := by
    intro imgs nl h
    have := congrArg List.length h
    simpa using this
  have e1 : ((pws ++ [pw]).map Prod.snd).length = ((pws ++ [pw]).map Prod.fst).length := by simp
  have la1 : (allocAccumulators pw.1).1.levels = geo.length := by
    simp only [allocAccumulators, pyramid.levels, List.length_map]
    exact dl _ _ hGt.1
  have la2 : (allocAccumulators pw.1).2.levels = geo.length := by
    simp only [allocAccumulators, pyramid.levels, List.length_map]
    exact dl _ _ hGt.1
  have hb := blend_eq w weights _ _ _ geo.length hs (by rw [hw, e1])
    (by simp) (by simp; omega)
    (fun s h => le_of_eq (dl _ _ (hsl s h)).symm) (fun s h => le_of_eq (dl _ _ (hwv s h)).symm)
    (n + 1) 0 (allocAccumulators pw.1) (by simp; omega) (by omega) la1 la2
  simp only [List.drop_zero] at hb
  obtain ⟨F, hF⟩ : ∃ F : List image, F = foldLevels scaleAdd geo.length
      (allocAccumulators pw.1).1.images
      (weights.zip ((((pws ++ [pw]).map Prod.fst).reverse.take (n + 1)).map pyramid.images)) :=
    ⟨_, rfl⟩
  obtain ⟨W, hW⟩ : ∃ W : List image, W = foldLevels scaleAdd geo.length
      (allocAccumulators pw.1).2.images
      (weights.zip ((((pws ++ [pw]).map Prod.snd).reverse.take (n + 1)).map pyramid.images)) :=
    ⟨_, rfl⟩
  rw [← hF, ← hW] at hb
  have lf : F.length = geo.length := by
    rw [hF, foldLevels_length]
    · exact la1
    · intro ks hks
      have h2 := (List.of_mem_zip hks).2
      rw [List.mem_map] at h2
      obtain ⟨s, hs1, e⟩ := h2
      rw [← e]; exact le_of_eq (dl _ _ (hsl s hs1)).symm
  have lw : W.length = geo.length := by
    rw [hW, foldLevels_length]
    · exact la2
    · intro ks hks
      have h2 := (List.of_mem_zip hks).2
      rw [List.mem_map] at h2
      obtain ⟨s, hs1, e⟩ := h2
      rw [← e]; exact le_of_eq (dl _ _ (hwv s hs1)).symm
  have hnorm := normalize_eq true geo.length ((⟨F⟩ : pyramid), (⟨W⟩ : pyramid))
    (le_of_eq lf.symm) (le_of_eq lw.symm)
  have lfl : (⟨F⟩ : pyramid).levels = geo.length := lf
  refine ⟨⟨F⟩, ⟨W⟩, ⟨zipLevels (divideBy true) geo.length F W⟩,
    by rw [eN]; exact hb, by rw [lfl]; exact hnorm, ?_, lf, lw, ?_, ?_⟩
  · unfold timeLapseFrame
    rw [hins]
    simp only [Except.bind, eN, hb]
    rw [lfl, hnorm]
  · show (zipLevels _ _ _ _).length = _
    rw [zipLevels_length _ _ _ _ (le_of_eq lw.symm)]
    exact lf
  · intro j hj p hp
    obtain ⟨a, b, ha, hb2, sa, sb, za, zb⟩ := alloc_getElem? pw.1 geo hGt.1 j hj
    obtain ⟨rf, hrf, srf, prf⟩ := foldLevels_pixel scaleAdd
      (fun k y c p => y.layers c p * k) geo.length j hj
      (fun k x y h => scaleAdd_same k x y h)
      (weights.zip ((((pws ++ [pw]).map Prod.fst).reverse.take (n + 1)).map pyramid.images))
      (allocAccumulators pw.1).1.images a ha
      (by
        intro ks hks
        have h2 := (List.of_mem_zip hks).2
        rw [List.mem_map] at h2
        obtain ⟨s, hs1, e⟩ := h2
        obtain ⟨hl, y, hy, hsy⟩ := geometry_getElem? s.images geo 3 j (hsl s hs1) hj
        rw [← e]
        exact ⟨le_of_eq hl.symm, y, hy, by rw [hsy, sa]⟩)
    obtain ⟨rw_, hrw, srw, prw⟩ := foldLevels_pixel scaleAdd
      (fun k y c p => y.layers c p * k) geo.length j hj
      (fun k x y h => scaleAdd_same k x y h)
      (weights.zip ((((pws ++ [pw]).map Prod.snd).reverse.take (n + 1)).map pyramid.images))
      (allocAccumulators pw.1).2.images b hb2
      (by
        intro ks hks
        have h2 := (List.of_mem_zip hks).2
        rw [List.mem_map] at h2
        obtain ⟨s, hs1, e⟩ := h2
        obtain ⟨hl, y, hy, hsy⟩ := geometry_getElem? s.images geo 1 j (hwv s hs1) hj
        rw [← e]
        exact ⟨le_of_eq hl.symm, y, hy, by rw [hsy, sb]⟩)
    rw [← hF] at hrf
    rw [← hW] at hrw
    rw [level_eq ⟨F⟩ j rf hrf, level_eq ⟨W⟩ j rw_ hrw,
      level_eq ⟨zipLevels (divideBy true) geo.length F W⟩ j (divideBy true rf rw_)
        (by rw [zipLevels_getElem? _ _ _ _ (le_of_eq lw.symm), if_pos hj, hrf, hrw]; rfl)]
    constructor
    · rw [prw 0 p, zb, zero_add, hw, e1]
      exact sum_slots j 0 p _ _ weights
    · intro c hc
      constructor
      · rw [prf c p, za, zero_add, hs]
        exact sum_slots j c p _ _ weights
      · exact divideBy_pixel true rf rw_ _ _ (by rw [srf, sa]) (by rw [srw, sb]) c p hc hp

/-! ## Runs of the sample instance -/

theorem framePyramids_a (g : Globals) :
    framePyramids sampleProc g (trimEOL "a.ppm\n".toList) = .ok pyramidsA := rfl

theorem stateA_run :
    whileLines (timeLapseFrame sampleProc sampleGlobals [1, 1 / 2])
      ⟨⟨sampleGlobals.srcPyr, sampleGlobals.wgtPyr⟩, 0, []⟩ ["a.ppm\n".toList]
      = (stateA, none) :=
  Prod.ext rfl (by decide)

theorem stateA_insert :
    insertFrame sampleProc sampleGlobals stateA.win "a.ppm\n".toList
      = .ok (windowAA, pyramidsA.1) := rfl

theorem hasGeometry_a : hasGeometry geoA pyramidsA := by
  constructor <;> decide

theorem window_invariant_witness :
    (1 : Int) ≤ sampleGlobals.maxFrames ∧
    ((∃ tp pw, framePyramids sampleProc sampleGlobals (trimEOL "a.ppm\n".toList) = .ok (tp, pw) ∧
      windowAA.srcPyr = some tp :: stateA.win.srcPyr.dropLast ∧
      windowAA.wgtPyr = some pw :: stateA.win.wgtPyr.dropLast) ∧
    ∀ i : Nat, (i : Int) < sampleGlobals.maxFrames →
      (i < ["a.ppm\n".toList].length + 1 →
        ∃ l tp pw, (["a.ppm\n".toList] ++ ["a.ppm\n".toList])[["a.ppm\n".toList].length - i]?
            = some l ∧
          framePyramids sampleProc sampleGlobals (trimEOL l) = .ok (tp, pw) ∧
          windowAA.srcPyr[i]? = some (some tp) ∧ windowAA.wgtPyr[i]? = some (some pw)) ∧
      (["a.ppm\n".toList].length + 1 ≤ i →
        windowAA.srcPyr[i]? = some none ∧ windowAA.wgtPyr[i]? = some none)) :=
  ⟨by decide, (window_invariant sampleProc sampleGlobals [1, 1 / 2] ["a.ppm\n".toList]
    "a.ppm\n".toList (by decide) rfl rfl).1 stateA windowAA pyramidsA.1 stateA_run
    stateA_insert⟩


theorem blend_formula_witness :
    [(1 : ℚ), 1 / 2].length = sampleGlobals.maxFrames.toNat ∧
    hasGeometry geoA pyramidsA ∧
    ∃ fPyr wPyr out : pyramid,
      blend windowAA [1, 1 / 2] sampleGlobals.maxFrames.toNat 0 (allocAccumulators pyramidsA.1)
        = .ok (fPyr, wPyr) ∧
      normalize true fPyr.levels (fPyr, wPyr) = .ok (out, wPyr) ∧
      timeLapseFrame sampleProc sampleGlobals [1, 1 / 2] stateA "a.ppm\n".toList
        = .ok ⟨windowAA, stateA.frameNo + 1,
            stateA.written ++
              [(tlfName sampleGlobals.dstPath stateA.frameNo, sampleProc.collapsePyr out)]⟩ ∧
      fPyr.levels = geoA.length ∧ wPyr.levels = geoA.length ∧ out.levels = geoA.length ∧
      ∀ j, j < geoA.length → ∀ p, p < (geoA.getD j (0, 0)).1 * (geoA.getD j (0, 0)).2 →
        (wPyr.level j).layers 0 p
          = (List.zipWith (fun k slot => k * slotSample slot j 0 p) [1, 1 / 2]
              windowAA.wgtPyr).sum ∧
        ∀ c, c < 3 →
          (fPyr.level j).layers c p
            = (List.zipWith (fun k slot => k * slotSample slot j c p) [1, 1 / 2]
                windowAA.srcPyr).sum ∧
          (out.level j).layers c p
            = if (wPyr.level j).layers 0 p = 0 then 0
              else (fPyr.level j).layers c p / (wPyr.level j).layers 0 p :=
  ⟨rfl, hasGeometry_a,
    blend_formula sampleProc sampleGlobals [1, 1 / 2] ["a.ppm\n".toList] "a.ppm\n".toList
      stateA windowAA pyramidsA.1 geoA (by decide) rfl rfl rfl
      (by
        intro l hl pw hpw
        have hl2 : l = "a.ppm\n".toList := by
          simp only [List.singleton_append, List.mem_cons, List.mem_singleton, or_self,
            List.not_mem_nil, or_false] at hl
          exact hl
        subst hl2
        rw [framePyramids_a] at hpw
        cases hpw
        exact hasGeometry_a)
      stateA_run stateA_insert⟩

theorem static_accumulation_witness :
    ["a.ppm\n".toList, "a.ppm\n".toList] ≠ [] ∧
    hasGeometry geoA pyramidsA ∧
    ∃ (pws : List (pyramid × pyramid)) (fPyr wPyr out : pyramid),
      ["a.ppm\n".toList, "a.ppm\n".toList].map
          (fun l => framePyramids sampleProc sampleGlobals (trimEOL l)) = pws.map Except.ok ∧
      whileLines (exposureFrame sampleProc sampleGlobals) none
          ["a.ppm\n".toList, "a.ppm\n".toList] = (some (fPyr, wPyr), none) ∧
      normalize false fPyr.levels (fPyr, wPyr) = .ok (out, wPyr) ∧
      ExposureFuse sampleProc sampleGlobals ["a.ppm\n".toList, "a.ppm\n".toList]
        = ⟨[(expFusionName sampleGlobals.dstPath, sampleProc.collapsePyr out)], none⟩ ∧
      fPyr.levels = geoA.length ∧ wPyr.levels = geoA.length ∧ out.levels = geoA.length ∧
      ∀ j, j < geoA.length → ∀ p, p < (geoA.getD j (0, 0)).1 * (geoA.getD j (0, 0)).2 →
        (wPyr.level j).layers 0 p = (pws.map fun pw => (pw.2.level j).layers 0 p).sum ∧
        ∀ c, c < 3 →
          (fPyr.level j).layers c p = (pws.map fun pw => (pw.1.level j).layers c p).sum ∧
          (out.level j).layers c p
            = if (wPyr.level j).layers 0 p = 0 then 0
              else (fPyr.level j).layers c p / (wPyr.level j).layers 0 p :=
  ⟨by decide, hasGeometry_a,
    static_accumulation sampleProc sampleGlobals ["a.ppm\n".toList, "a.ppm\n".toList] geoA
      (by decide)
      (by
        intro l hl
        have hl2 : l = "a.ppm\n".toList := by
          simp only [List.mem_cons, List.mem_singleton, or_self, List.not_mem_nil,
            or_false] at hl
          exact hl
        subst hl2
        exact ⟨pyramidsA, framePyramids_a _, hasGeometry_a⟩)⟩

theorem exposureFuse_one_output_witness :
    ["a.ppm\n".toList, "a.ppm\n".toList] ≠ [] ∧
    sampleGlobals.dstPath ++ "ExpFusionOutput.ppm".toList = "out/ExpFusionOutput.ppm".toList ∧
    (ExposureFuse sampleProc sampleGlobals ["a.ppm\n".toList, "a.ppm\n".toList]).written.map
        Prod.fst = [sampleGlobals.dstPath ++ "ExpFusionOutput.ppm".toList] ∧
    (ExposureFuse sampleProc sampleGlobals ["a.ppm\n".toList, "a.ppm\n".toList]).exit = none :=
  ⟨by decide, by decide,
    exposureFuse_one_output sampleProc sampleGlobals 5 ["a.ppm\n".toList, "a.ppm\n".toList]
      (by decide)
      (by
        intro l hl
        have hl2 : l = "a.ppm\n".toList := by
          simp only [List.mem_cons, List.mem_singleton, or_self, List.not_mem_nil,
            or_false] at hl
          exact hl
        subst hl2
        exact ⟨pyramidsA, framePyramids_a _, by decide, by decide⟩)⟩

theorem timeLapse_outputs_witness :
    (1 : Int) ≤ sampleGlobals.maxFrames ∧
    sampleProc.readPPM (trimEOL "c.ppm\n".toList) = none ∧
    ((TimeLapseFuse sampleProc sampleGlobals
        (["a.ppm\n".toList, "a.ppm\n".toList, "a.ppm\n".toList]
          ++ ["c.ppm\n".toList, "a.ppm\n".toList])).written.length
      = ["a.ppm\n".toList, "a.ppm\n".toList, "a.ppm\n".toList].length ∧
    (∀ m, m < ["a.ppm\n".toList, "a.ppm\n".toList, "a.ppm\n".toList].length →
      ∃ digits : List Char,
        ((TimeLapseFuse sampleProc sampleGlobals
            (["a.ppm\n".toList, "a.ppm\n".toList, "a.ppm\n".toList]
              ++ ["c.ppm\n".toList, "a.ppm\n".toList])).written.map Prod.fst)[m]?
          = some (sampleGlobals.dstPath ++ "TLF_".toList ++ digits ++ ".ppm".toList) ∧
        digits.all Char.isDigit = true ∧ digitsValue digits = m ∧ 9 ≤ digits.length ∧
        (m < 10 ^ 9 → digits.length = 9) ∧ (10 ^ 9 ≤ m → digits.head? ≠ some '0')) ∧
    (TimeLapseFuse sampleProc sampleGlobals
        (["a.ppm\n".toList, "a.ppm\n".toList, "a.ppm\n".toList]
          ++ ["c.ppm\n".toList, "a.ppm\n".toList])).exit
      = if ["c.ppm\n".toList, "a.ppm\n".toList] = [] then none else some .readError) ∧
    (TimeLapseFuse sampleProc sampleGlobals
        (["a.ppm\n".toList, "a.ppm\n".toList, "a.ppm\n".toList]
          ++ ["c.ppm\n".toList, "a.ppm\n".toList])).written.map Prod.fst
      = ["out/TLF_000000000.ppm".toList, "out/TLF_000000001.ppm".toList,
          "out/TLF_000000002.ppm".toList] ∧
    (TimeLapseFuse sampleProc sampleGlobals
        (["a.ppm\n".toList, "a.ppm\n".toList, "a.ppm\n".toList]
          ++ ["c.ppm\n".toList, "a.ppm\n".toList])).exit = some .readError :=
  ⟨by decide, rfl,
    timeLapse_outputs sampleProc sampleGlobals
      ["a.ppm\n".toList, "a.ppm\n".toList, "a.ppm\n".toList]
      ["c.ppm\n".toList, "a.ppm\n".toList] 5 (by decide) rfl rfl rfl
      (by
        intro l hl
        have hl2 : l = "a.ppm\n".toList := by
          simp only [List.mem_cons, List.mem_singleton, or_self, List.not_mem_nil,
            or_false] at hl
          exact hl
        subst hl2
        exact ⟨pyramidsA, framePyramids_a _, by decide, by decide⟩)
      (Or.inr ⟨"c.ppm\n".toList, ["a.ppm\n".toList], rfl, rfl⟩),
    by decide, by decide⟩

/-! ## The weights below the overflow -/

theorem wrap32_of_range (z : Int) (h1 : -2147483648 ≤ z) (h2 : z < 2147483648) :
    wrap32 z = z := by
  unfold wrap32
  rw [Int.emod_eq_of_lt (by omega) (by omega)]
  omega

/-- Below index 46341 the product `i*i` fits an `int`: the argument of `exp` is
`-i^2/(2 sigma^2)`, it is 0 at index 0 and does not increase with the index, so
the coefficients `exp` of it start at 1 and decay. -/
theorem weightArg_in_range (sigma : ℚ) (i j : Nat) (hij : i ≤ j) (hj : j ≤ 46340) :
    weightArg sigma i = -((i : ℚ) ^ 2) / (2 * sigma * sigma) ∧
    weightArg sigma 0 = 0 ∧
    weightArg sigma j ≤ weightArg sigma i ∧
    Real.exp ((weightArg sigma 0 : ℚ) : ℝ) = 1 ∧
    Real.exp ((weightArg sigma j : ℚ) : ℝ) ≤ Real.exp ((weightArg sigma i : ℚ) : ℝ) := by
  have key : ∀ m : Nat, m ≤ 46340 →
      weightArg sigma m = -((m : ℚ) ^ 2) / (2 * sigma * sigma) := by
    intro m hm
    have hmi : (m : Int) ≤ 46340 := by exact_mod_cast hm
    have h0m : (0 : Int) ≤ (m : Int) := by positivity
    have hb : (m : Int) * m ≤ 2147395600 := by nlinarith
    have hp : (0 : Int) ≤ (m : Int) * m := by positivity
    have h1 : wrap32 ((m : Int) * m) = (m : Int) * m :=
      wrap32_of_range _ (by omega) (by omega)
    have h2 : wrap32 (-((m : Int) * m)) = -((m : Int) * m) :=
      wrap32_of_range _ (by omega) (by omega)
    unfold weightArg
    rw [h1, h2]
    push_cast
    ring
  have h0 : weightArg sigma 0 = 0 := by
    have := key 0 (by omega)
    simpa using this
  have hmono : weightArg sigma j ≤ weightArg sigma i := by
    rw [key i (by omega), key j hj]
    have hsq : (i : ℚ) ^ 2 ≤ (j : ℚ) ^ 2 := by
      have : (i : ℚ) ≤ (j : ℚ) := by exact_mod_cast hij
      have hi0 : (0 : ℚ) ≤ (i : ℚ) := by positivity
      nlinarith
    have hden : (0 : ℚ) ≤ 2 * sigma * sigma := by nlinarith [mul_self_nonneg sigma]
    rw [neg_div, neg_div, neg_le_neg_iff]
    exact div_le_div_of_nonneg_right hsq hden
  refine ⟨key i (by omega), h0, hmono, ?_, ?_⟩
  · rw [h0]; simp
  · apply Real.exp_le_exp.mpr
    exact_mod_cast hmono

theorem weightArg_in_range_witness :
    (3 : Nat) ≤ 7 ∧ (7 : Nat) ≤ 46340 ∧
    weightArg (5 / 3) (3 : Nat) = -(((3 : Nat) : ℚ) ^ 2) / (2 * (5 / 3) * (5 / 3)) ∧
    weightArg (5 / 3) 0 = 0 ∧
    weightArg (5 / 3) (7 : Nat) ≤ weightArg (5 / 3) (3 : Nat) ∧
    Real.exp ((weightArg (5 / 3) 0 : ℚ) : ℝ) = 1 ∧
    Real.exp ((weightArg (5 / 3) (7 : Nat) : ℚ) : ℝ)
      ≤ Real.exp ((weightArg (5 / 3) (3 : Nat) : ℚ) : ℝ) :=
  ⟨by decide, by decide, weightArg_in_range (5 / 3) 3 7 (by decide) (by decide)⟩

end TimeLapseFusion
